import Mathlib

/-!
Formal model of the SQL analytics copilot repository.

The Python sources are embedded shallowly over `List Char`:

* `src/guardrails.py`  — `validate_sql`, `_enforce_limit`, the keyword denylist;
* `src/validators.py`  — `run_validations` and its five checks;
* `src/utils/charts.py` — the `auto_chart` dispatcher (chart-kind selection);
* `src/app.py`          — the per-question orchestration (generate, validate,
  execute, single repair attempt).

Characters are modelled in ASCII: Python `str.strip`, the regex class `\s`
and the word class `\w` are taken over the ASCII whitespace set and
`[A-Za-z0-9_]`, which is what every string handled by the code contains.
Library calls that leave the repository (pandas date parsing, Python `str`
of a float, plotly rendering) are modelled as explicit oracle parameters
or noted in comments at their use sites.
-/

namespace SqlCopilot

/-- ASCII whitespace, the set removed by Python `str.strip()` and matched by
the regex class `\s` in the guardrail patterns. -/
def isSpaceChar (c : Char) : Bool :=
  c == ' ' || c == '\t' || c == '\n' || c == '\r' || c == '\x0b' || c == '\x0c'

/-- The regex word class `\w` (ASCII): letters, digits and underscore.  Word
boundaries `\b` in the guardrail patterns are transitions of this class. -/
def isWordChar (c : Char) : Bool := c.isAlpha || c.isDigit || c == '_'

/-- Case-insensitive character equality, re.IGNORECASE on ASCII. -/
def ciEqChar (c k : Char) : Bool := c.toUpper == k.toUpper

/-- Positional lookup on character lists; `none` past the end. -/
def at? : List Char → Nat → Option Char
  | [], _ => none
  | c :: _, 0 => some c
  | _ :: l, i + 1 => at? l i

/-- Literal list-prefix test. -/
def listPfx : List Char → List Char → Bool
  | [], _ => true
  | _ :: _, [] => false
  | p :: ps, c :: cs => p == c && listPfx ps cs

/-- Case-insensitive list-prefix test (pattern first, subject second). -/
def ciPfx : List Char → List Char → Bool
  | [], _ => true
  | _ :: _, [] => false
  | k :: ks, c :: cs => ciEqChar c k && ciPfx ks cs

/-- Literal suffix test. -/
def listSfx (q s : List Char) : Bool := listPfx q.reverse s.reverse

/-- Python `str.lstrip()` (whitespace only). -/
def lstripWS (s : List Char) : List Char := s.dropWhile isSpaceChar

/-- Drop the longest trailing run of characters satisfying `p`. -/
def rdrop (p : Char → Bool) (s : List Char) : List Char :=
  (s.reverse.dropWhile p).reverse

/-- Python `str.rstrip()` (whitespace only). -/
def rstripWS (s : List Char) : List Char := rdrop isSpaceChar s

/-- Python `str.strip()`. -/
def pyStrip (s : List Char) : List Char := rstripWS (lstripWS s)

/-- Python `str.rstrip(";")`. -/
def rstripSemi (s : List Char) : List Char := rdrop (fun c => c == ';') s

/-- Python `str.upper()` (ASCII). -/
def pyUpper (s : List Char) : List Char := s.map Char.toUpper

/-- Python `str.lower()` (ASCII). -/
def pyLower (s : List Char) : List Char := s.map Char.toLower

/-- Length of the leading run satisfying `p` (greedy `p*` in a regex). -/
def cntWhile (p : Char → Bool) (l : List Char) : Nat := (l.takeWhile p).length

/-- Python `int()` of a run of decimal digits. -/
def digitsVal (l : List Char) : Nat :=
  l.foldl (fun a c => a * 10 + (c.toNat - 48)) 0

/-! ## guardrails.py -/

/-- `BLOCKED_KEYWORDS` from src/guardrails.py. -/
def BLOCKED_KEYWORDS : List (List Char) :=
  [ "DROP".data, "DELETE".data, "UPDATE".data, "INSERT".data, "ALTER".data,
    "TRUNCATE".data, "PRAGMA".data, "ATTACH".data, "DETACH".data, "VACUUM".data,
    "CREATE".data, "REPLACE".data, "MERGE".data, "EXEC".data, "EXECUTE".data ]

def MAX_LIMIT : Nat := 1000

def DEFAULT_LIMIT : Nat := 100

/-- Word boundary on the left of position `i`, where `prev` tells whether the
character just before the scanned region is a word character (used when a
scan enters the middle of a string; at the true start `prev = false`). -/
def bdBefore (prev : Bool) (s : List Char) (i : Nat) : Bool :=
  match i with
  | 0 => !prev
  | j + 1 =>
    match at? s j with
    | some c => !isWordChar c
    | none => true

/-- Word boundary at position `i` looking right: the character there, if any,
is not a word character. -/
def bdAfter (s : List Char) (i : Nat) : Bool :=
  match at? s i with
  | some c => !isWordChar c
  | none => true

/-- `kw` occurs at position `i` of `s` as a whole word, case-insensitively:
the semantics of one candidate position of `re.search(rf"\b{kw}\b", s, re.I)`.
`prev` is the word-character status of the character preceding `s`. -/
def kwOccursAtP (prev : Bool) (kw s : List Char) (i : Nat) : Bool :=
  bdBefore prev s i && ciPfx kw (s.drop i) && bdAfter s (i + kw.length)

/-- Whole-word case-insensitive search relative to an entry flag `prev`. -/
def hasKwP (prev : Bool) (kw s : List Char) : Bool :=
  (List.range (s.length + 1)).any (kwOccursAtP prev kw s)

/-- `re.search(rf"\b{keyword}\b", sql, re.IGNORECASE)` is not None. -/
def hasKw (kw s : List Char) : Bool := hasKwP false kw s

/-- Length of the greedy whitespace run after a candidate `LIMIT` head. -/
def wsnOf (s : List Char) : Nat := cntWhile isSpaceChar (s.drop 5)

/-- What remains of `s` after the `LIMIT` head and the whitespace run. -/
def digRest (s : List Char) : List Char := (s.drop 5).drop (wsnOf s)

/-- Length of the greedy digit run after the whitespace. -/
def dnOf (s : List Char) : Nat := cntWhile Char.isDigit (digRest s)

/-- One candidate position of `re.search(r"\bLIMIT\s+(\d+)\b", ..., re.I)`:
if the string `s` (whose predecessor has word-status `prev`, giving the
left `\b`) begins with a case-insensitive `LIMIT`, then one or more
whitespace characters, then one or more digits followed by a word boundary,
return the captured digit value and the total matched length.  The greedy
`\s+` and `\d+` cannot backtrack usefully: a shorter whitespace run ends in
whitespace (not a digit) and a shorter digit run ends in a digit (a word
character), so maximal runs are the only candidates. -/
def limitMatchAt (prev : Bool) (s : List Char) : Option (Nat × Nat) :=
  if prev = true then none
  else if ciPfx ("LIMIT".data) s = false then none
  else if wsnOf s = 0 then none
  else if dnOf s = 0 then none
  else if bdAfter (digRest s) (dnOf s) = false then none
  else some (digitsVal ((digRest s).take (dnOf s)), 5 + wsnOf s + dnOf s)

/-- Value captured by the first (leftmost) match of the LIMIT pattern, the
`limit_match.group(1)` of `_enforce_limit`. -/
def findLimitVal : Bool → List Char → Option Nat
  | _, [] => none
  | prev, c :: rest =>
    match limitMatchAt prev (c :: rest) with
    | some (v, _) => some v
    | none => findLimitVal (isWordChar c) rest

/-- Replacement text `f"LIMIT {MAX_LIMIT}"`. -/
def limitRepl : List Char := "LIMIT 1000".data

/-- Fuel-driven scan of `re.sub(r"\bLIMIT\s+\d+\b", "LIMIT 1000", sql, re.I)`:
each leftmost match is replaced and scanning resumes after it (the last
matched character is a digit, so the continuation flag is `true`). -/
def replaceLimitsGo : Nat → Bool → List Char → List Char
  | 0, _, s => s
  | fuel + 1, prev, s =>
    match s with
    | [] => []
    | c :: rest =>
      match limitMatchAt prev s with
      | some (_, n) => limitRepl ++ replaceLimitsGo fuel true (s.drop n)
      | none => c :: replaceLimitsGo fuel (isWordChar c) rest

/-- `re.sub(r"\bLIMIT\s+\d+\b", "LIMIT 1000", sql, flags=re.IGNORECASE)`. -/
def replaceLimits (s : List Char) : List Char := replaceLimitsGo s.length false s

/-- The appended default clause `f"\nLIMIT {DEFAULT_LIMIT}"`. -/
def appLim : List Char := "\nLIMIT 100".data

/-- `_enforce_limit` from src/guardrails.py: cap an over-ceiling LIMIT, or
append the default when no LIMIT clause is present. -/
def enforce_limit (sql : List Char) : List Char :=
  match findLimitVal false sql with
  | some v => if v > MAX_LIMIT then replaceLimits sql else sql
  | none => sql ++ appLim

/-- The typed rejection reasons of `GuardrailError`.  The source raises one
exception class with three distinct message shapes; the spec names them
`LlmSignaledError`, `NotASelect` and `BlockedKeyword`, and the payloads kept
here are the data interpolated into those messages. -/
inductive GuardrailError
  | llmCouldNotAnswer (msg : List Char)
  | notASelect
  | blockedKeyword (kw : List Char)
deriving DecidableEq

/-- `re.sub(r"^```(?:sql)?\s*", "", sql, flags=re.IGNORECASE)`: the anchored
pattern matches at most once, removing three backticks, an optional
case-insensitive `sql` tag, and any following whitespace run. -/
def stripFenceHead (s : List Char) : List Char :=
  if listPfx ("```".data) s then
    let t := s.drop 3
    let t2 := if ciPfx ("sql".data) t then t.drop 3 else t
    lstripWS t2
  else s

/-- `re.sub(r"\s*```$", "", sql)`: the pattern can match at most once, ending
at the end of the string or just before a final newline (Python `$`); the
whitespace run before the closing fence is greedy to the left. -/
def stripFenceTail (s : List Char) : List Char :=
  if listSfx ("```".data) s then rstripWS (s.take (s.length - 3))
  else if listSfx ("```\n".data) s then
    rstripWS (s.take (s.length - 4)) ++ ['\n']
  else s

/-- Stage 1 of `validate_sql`: `sql.strip().rstrip(";")`. -/
def stage1 (sql0 : List Char) : List Char := rstripSemi (pyStrip sql0)

/-- Stage 4 of `validate_sql`: the fence-stripped, re-stripped text on which
the SELECT check, the keyword scan and the limit enforcement operate. -/
def canonText (sql0 : List Char) : List Char :=
  pyStrip (stripFenceTail (stripFenceHead (stage1 sql0)))

/-- The check of lines 48-50 of guardrails.py: `sql.upper().lstrip()` starts
with `SELECT` or `WITH`. -/
def startsSelWith (s : List Char) : Bool :=
  let normalized := lstripWS (pyUpper s)
  listPfx ("SELECT".data) normalized || listPfx ("WITH".data) normalized

/-- `validate_sql` from src/guardrails.py.  Raising `GuardrailError` is
modelled as `Except.error`; the returned sanitized SQL as `Except.ok`. -/
def validate_sql (sql0 : List Char) : Except GuardrailError (List Char) :=
  let sql1 := stage1 sql0
  if listPfx ("ERROR:".data) (pyUpper sql1) then
    Except.error (GuardrailError.llmCouldNotAnswer (pyStrip (sql1.drop 6)))
  else
    let sql4 := canonText sql0
    if !startsSelWith sql4 then Except.error GuardrailError.notASelect
    else
      match BLOCKED_KEYWORDS.find? (fun kw => hasKw kw sql4) with
      | some kw => Except.error (GuardrailError.blockedKeyword kw)
      | none => Except.ok (enforce_limit sql4)

instance {E A : Type} [DecidableEq E] [DecidableEq A] : DecidableEq (Except E A) :=
  fun x y =>
    match x, y with
    | .ok a, .ok b =>
      if h : a = b then isTrue (by rw [h]) else
        isFalse (by intro hh; cases hh; exact h rfl)
    | .ok _, .error _ => isFalse (by intro hh; cases hh)
    | .error _, .ok _ => isFalse (by intro hh; cases hh)
    | .error e, .error f =>
      if h : e = f then isTrue (by rw [h]) else
        isFalse (by intro hh; cases hh; exact h rfl)

/-! ## Result tables

A pandas `DataFrame` is modelled column-wise.  A column is either numeric
(`select_dtypes(include="number")`) with rational values — Python ints and
floats are merged into `ℚ`, a standard shallow model of the numeric tower —
or an object column of strings.  Missing values (`NaN` / `None`) are
`Option.none`. -/

inductive Col
  | num (name : List Char) (vals : List (Option ℚ))
  | obj (name : List Char) (vals : List (Option (List Char)))
deriving DecidableEq

structure Df where
  cols : List Col
deriving DecidableEq

def colName : Col → List Char
  | .num n _ => n
  | .obj n _ => n

def colSize : Col → Nat
  | .num _ v => v.length
  | .obj _ v => v.length

/-- `len(df)`: the row count, the common length of the columns. -/
def nrows (df : Df) : Nat := (df.cols.head?.map colSize).getD 0

/-- pandas `df.empty`: some axis has length zero. -/
def dfEmpty (df : Df) : Bool := df.cols.isEmpty || nrows df == 0

/-- Python `needle in hay` on strings. -/
def containsSub (needle hay : List Char) : Bool :=
  (List.range (hay.length + 1)).any (fun i => listPfx needle (hay.drop i))

/-- Python `str.count`: non-overlapping occurrences, scanning left to right. -/
def cntSubGo : Nat → List Char → List Char → Nat
  | 0, _, _ => 0
  | _, _, [] => 0
  | fuel + 1, needle, c :: rest =>
    if listPfx needle (c :: rest) then
      1 + cntSubGo fuel needle ((c :: rest).drop needle.length)
    else cntSubGo fuel needle rest

def cntSub (needle s : List Char) : Nat := cntSubGo s.length needle s

/-! ## validators.py -/

/-- The five warning shapes of validators.py.  The source produces f-string
messages; each constructor keeps the data interpolated into the message. -/
inductive Warning
  | zeroRows
  | highNulls (col : List Char)
  | rowExplosion (joins rows : Nat)
  | dupKeys (col : List Char) (dups : Nat)
  | outliers (col : List Char)
  | mixedGrain
deriving DecidableEq

/-- `df[col].isna().mean()`: the missing fraction of a column.  pandas yields
NaN on an empty column and `NaN > 0.3` is false; the model returns 0 there,
which compares the same way. -/
def nullPct (col : Col) : ℚ :=
  let n := colSize col
  let missing :=
    match col with
    | .num _ v => (v.filter Option.isNone).length
    | .obj _ v => (v.filter Option.isNone).length
  if n = 0 then 0 else (missing : ℚ) / (n : ℚ)

/-- `_check_nulls`: warn per column whose null rate exceeds 30%.  The Python
comparison is between floats; the model compares the exact rationals. -/
def check_nulls (df : Df) : List Warning :=
  df.cols.filterMap fun col =>
    if nullPct col > 3 / 10 then some (Warning.highNulls (colName col)) else none

/-- `_check_row_explosion`: `sql.upper().count("JOIN")` with the 2-join /
500-row thresholds. -/
def check_row_explosion (df : Df) (sql : List Char) : List Warning :=
  let joinCount := cntSub ("JOIN".data) (pyUpper sql)
  if 2 ≤ joinCount ∧ 500 < nrows df then
    [Warning.rowExplosion joinCount (nrows df)]
  else []

/-- Number of entries equal to an earlier entry, `df[col].duplicated().sum()`
(pandas counts missing values as equal to each other). -/
def dupCount : Col → Nat
  | .num _ v => v.length - v.dedup.length
  | .obj _ v => v.length - v.dedup.length

/-- `_check_duplicate_keys`: among columns whose lowered name ends with or
equals `id`, inspect only the first; warn when it has duplicates. -/
def check_duplicate_keys (df : Df) : List Warning :=
  let idCols := df.cols.filter fun c =>
    listSfx ("id".data) (pyLower (colName c)) || pyLower (colName c) == ("id".data)
  (idCols.take 1).filterMap fun col =>
    if 1 ≤ dupCount col then some (Warning.dupKeys (colName col) (dupCount col))
    else none

def insSorted (x : ℚ) : List ℚ → List ℚ
  | [] => [x]
  | y :: ys => if x ≤ y then x :: y :: ys else y :: insSorted x ys

/-- Ascending sort of the sampled values (insertion sort). -/
def sortQ : List ℚ → List ℚ
  | [] => []
  | x :: xs => insSorted x (sortQ xs)

def qGet (l : List ℚ) (i : Nat) : ℚ := (l.get? i).getD 0

/-- pandas `Series.quantile(q)` with the default linear interpolation over
the sorted values; `Series.median()` coincides with `quantile(0.5)`. -/
def quantileLin (sorted : List ℚ) (q : ℚ) : ℚ :=
  let n := sorted.length
  if n = 0 then 0
  else
    let pos : ℚ := q * ((n : ℚ) - 1)
    let i : Nat := pos.floor.toNat
    let f : ℚ := pos - (i : ℚ)
    if i + 1 < n then qGet sorted i + (qGet sorted (i + 1) - qGet sorted i) * f
    else qGet sorted i

def isNumCol : Col → Bool
  | .num _ _ => true
  | .obj _ _ => false

def colRatVals : Col → List (Option ℚ)
  | .num _ v => v
  | .obj _ _ => []

/-- `_check_outliers`: for the first three numeric columns with at least five
present values, warn when the 99th percentile exceeds 50 times a positive
median. -/
def check_outliers (df : Df) : List Warning :=
  ((df.cols.filter isNumCol).take 3).filterMap fun col =>
    let series := (colRatVals col).filterMap id
    if series.length < 5 then none
    else
      let sorted := sortQ series
      let p99 := quantileLin sorted (99 / 100)
      let med := quantileLin sorted (1 / 2)
      if med > 0 ∧ p99 > med * 50 then some (Warning.outliers (colName col))
      else none

/-- `_check_mixed_grain`: daily and monthly name cues present together. -/
def check_mixed_grain (df : Df) : List Warning :=
  let names := df.cols.map fun c => pyLower (colName c)
  let hasDaily := names.any fun c =>
    containsSub ("date".data) c || containsSub ("day".data) c
  let hasMonthly := names.any fun c =>
    containsSub ("month".data) c || containsSub ("year".data) c
  if hasDaily = true ∧ hasMonthly = true then [Warning.mixedGrain] else []

/-- `run_validations` from src/validators.py: a single zero-rows warning on an
empty table, otherwise the concatenation of the five checks in source order.
The Python function raises nothing on any input; the model is total. -/
def run_validations (df : Df) (sql : List Char) : List Warning :=
  if dfEmpty df then [Warning.zeroRows]
  else
    check_nulls df ++ check_row_explosion df sql ++ check_duplicate_keys df
      ++ check_outliers df ++ check_mixed_grain df

/-! ## utils/charts.py

Only the dispatch decision of `auto_chart` is modelled: which chart kind is
selected and which columns it is keyed on.  The plotly rendering calls (and
the try/except fallbacks around rendering, which depend on plotly internals)
are outside the repository.  Two pieces of external library behaviour enter
the decision itself and are passed in as an oracle: whether
`pd.to_datetime` accepts a five-value sample of an object column, and what
Python `str()` prints for a numeric cell (used only by the two-character
US-state heuristic). -/

structure PandasModel where
  parsesAsDate : List (List Char) → Bool
  numStr : ℚ → List Char

inductive ChartKind
  | kpiSingle (col : List Char)
  | kpiMulti (cols : List (List Char))
  | funnelChart (cat num : List Char)
  | choropleth (geo num : List Char) (usState : Bool)
  | heatmapCorr (cols : List (List Char))
  | scatter (x y : List Char) (color : Option (List Char))
  | multiLine (x y color : List Char)
  | areaChart (x y : List Char)
  | lineChart (x y : List Char)
  | donut (cat num : List Char)
  | treemap (cat num : List Char)
  | groupedBar (cat : List Char) (nums : List (List Char))
  | hbar (cat num : List Char)
  | histogram (col : List Char)
  | noChart
deriving DecidableEq

/-- `_numeric_cols`. -/
def numericColNames (df : Df) : List (List Char) :=
  df.cols.filterMap fun c => match c with | .num n _ => some n | .obj _ _ => none

/-- `_cat_cols` (object dtype). -/
def catColNames (df : Df) : List (List Char) :=
  df.cols.filterMap fun c => match c with | .obj n _ => some n | .num _ _ => none

def dateKeywords : List (List Char) :=
  [ "date".data, "month".data, "year".data, "week".data, "day".data,
    "period".data, "time".data, "quarter".data ]

/-- `_date_cols`: name keyword, or an object column whose five-value sample
parses as dates (library behaviour, via the oracle). -/
def date_cols (pm : PandasModel) (df : Df) : List (List Char) :=
  df.cols.filterMap fun col =>
    if dateKeywords.any (fun kw => containsSub kw (pyLower (colName col))) then
      some (colName col)
    else
      match col with
      | .obj n vals =>
        if pm.parsesAsDate ((vals.filterMap id).take 5) then some n else none
      | .num _ _ => none

def geoKeywords : List (List Char) :=
  [ "country".data, "nation".data, "state".data, "region".data, "city".data,
    "province".data, "territory".data ]

/-- `_geo_cols`. -/
def geo_cols (df : Df) : List (List Char) :=
  df.cols.filterMap fun col =>
    if geoKeywords.any (fun kw => containsSub kw (pyLower (colName col))) then
      some (colName col)
    else none

def titleHasAny (kws : List (List Char)) (title : List Char) : Bool :=
  kws.any fun k => containsSub k (pyLower title)

def is_cumulative (t : List Char) : Bool :=
  titleHasAny [ "cumul".data, "running".data, "total over".data, "growth".data,
    "ytd".data, "mtd".data ] t

def is_distribution (t : List Char) : Bool :=
  titleHasAny [ "distribut".data, "spread".data, "histogram".data, "range".data,
    "frequency".data, "how many".data ] t

def is_correlation (t : List Char) : Bool :=
  titleHasAny [ "vs".data, "versus".data, "correlat".data, "relationship".data,
    "scatter".data, "compare".data ] t

def is_funnel (t : List Char) : Bool :=
  titleHasAny [ "funnel".data, "stage".data, "step".data, "conversion".data,
    "pipeline".data, "drop".data ] t

def is_part_of_whole (t : List Char) : Bool :=
  titleHasAny [ "share".data, "breakdown".data, "proportion".data, "percent".data,
    "mix".data, "composition".data, "split".data, "by".data ] t

def findCol (df : Df) (name : List Char) : Option Col :=
  df.cols.find? fun c => colName c == name

/-- `len(series.unique())` — distinct values, missing included. -/
def colUniqueCount : Col → Nat
  | .num _ v => v.dedup.length
  | .obj _ v => v.dedup.length

/-- `series.nunique()` — distinct present values, missing excluded. -/
def colNunique : Col → Nat
  | .num _ v => (v.filterMap id).dedup.length
  | .obj _ v => (v.filterMap id).dedup.length

def uniqueCountOf (df : Df) (name : List Char) : Nat :=
  match findCol df name with
  | some c => colUniqueCount c
  | none => 0

def nuniqueOf (df : Df) (name : List Char) : Nat :=
  match findCol df name with
  | some c => colNunique c
  | none => 0

/-- `df[geo_col].dropna().head(10)` rendered through Python `str`. -/
def colSampleStrs (pm : PandasModel) : Col → List (List Char)
  | .num _ vals => ((vals.filterMap id).take 10).map pm.numStr
  | .obj _ vals => (vals.filterMap id).take 10

/-- The `is_us_state` test of `_choropleth`: any of the first ten present
values of the geographic column has display length two. -/
def usStateSample (pm : PandasModel) (df : Df) (geoName : List Char) : Bool :=
  match findCol df geoName with
  | some col => (colSampleStrs pm col).any fun v => v.length == 2
  | none => false

/-- The `_choropleth` mode choice: any sampled value of display length two
selects US-state mode, otherwise country-name mode.  The try/except around
the plotly call (falling back to a horizontal bar when rendering fails) is
rendering behaviour and not part of the decision model. -/
def chooseChoropleth (pm : PandasModel) (df : Df) (geoName numName : List Char) :
    ChartKind :=
  ChartKind.choropleth geoName numName (usStateSample pm df geoName)

/-- `auto_chart` from src/utils/charts.py, reduced to the selected chart kind
and its column bindings.  The in-place date parse and ascending sort in the
time-series branch change only the rendering, never the selected kind. -/
def auto_chart (pm : PandasModel) (df : Df) (title : List Char) : ChartKind :=
  if dfEmpty df then ChartKind.noChart
  else
    let numeric := numericColNames df
    let cats := catColNames df
    let dates := date_cols pm df
    let geos := geo_cols df
    let rows := nrows df
    if rows = 1 ∧ 1 ≤ numeric.length then
      if numeric.length = 1 then ChartKind.kpiSingle (numeric.headD [])
      else ChartKind.kpiMulti (numeric.take 4)
    else if is_funnel title = true ∧ cats ≠ [] ∧ numeric ≠ [] then
      ChartKind.funnelChart (cats.headD []) (numeric.headD [])
    else if geos ≠ [] ∧ numeric ≠ [] then
      chooseChoropleth pm df (geos.headD []) (numeric.headD [])
    else if 4 ≤ numeric.length ∧ dates = [] ∧ cats = [] then
      ChartKind.heatmapCorr numeric
    else if 2 ≤ numeric.length ∧ (is_correlation title = true ∨ (dates = [] ∧ cats = []))
        ∧ 5 < rows then
      ChartKind.scatter (numeric.headD []) (numeric.getD 1 []) cats.head?
    else if dates ≠ [] ∧ numeric ≠ [] then
      if cats ≠ [] ∧ uniqueCountOf df (cats.headD []) ≤ 8 ∧ is_cumulative title = false then
        ChartKind.multiLine (dates.headD []) (numeric.headD []) (cats.headD [])
      else if is_cumulative title = true then
        ChartKind.areaChart (dates.headD []) (numeric.headD [])
      else ChartKind.lineChart (dates.headD []) (numeric.headD [])
    else if is_distribution title = true ∧ numeric ≠ [] then
      ChartKind.histogram (numeric.headD [])
    else if cats ≠ [] ∧ numeric ≠ [] then
      let catCol := cats.headD []
      let numCol := numeric.headD []
      let nCats := nuniqueOf df catCol
      if is_part_of_whole title = true then
        if nCats ≤ 8 then ChartKind.donut catCol numCol
        else ChartKind.treemap catCol numCol
      else if 2 ≤ numeric.length then ChartKind.groupedBar catCol (numeric.take 3)
      else if nCats ≤ 25 then ChartKind.hbar catCol numCol
      else ChartKind.treemap catCol numCol
    else if numeric.length = 1 ∧ 5 < rows then ChartKind.histogram (numeric.headD [])
    else if 2 ≤ numeric.length then
      ChartKind.scatter (numeric.headD []) (numeric.getD 1 []) none
    else ChartKind.noChart

/-! ## app.py — the per-question orchestration (chat screen)

The handler around lines 769-833 of src/app.py: generate SQL, validate it,
run it; on an execution exception, ask `fix_sql` for a repaired query once,
re-validate and re-run it; any failure of that single repair attempt is
terminal.  The external calls (`generate_sql`, `run_query`, `fix_sql`) are
oracle inputs; `validate_sql` is the model above.  Each `Except.error`
models a raised Python exception. -/

inductive ChatError
  | genFailed (msg : List Char)
  | guardrailRejected (e : GuardrailError)
  | queryFailed (msg : List Char)
  | queryFailedGuard (e : GuardrailError)
deriving DecidableEq

structure Oracles where
  genSql : Except (List Char) (List Char)
  runQuery : List Char → Except (List Char) Df
  fixSql : List Char → List Char → Except (List Char) (List Char)

structure ChatOutcome where
  sql : Option (List Char)
  df : Option Df
  err : Option ChatError
  fixCalls : Nat
deriving DecidableEq

/-- The question handler of src/app.py.  `fixCalls` counts invocations of
`fix_sql`.  In the repair branch the Python variable `sql` is reassigned
only when the second `validate_sql` succeeds, mirrored here. -/
def handleQuestion (o : Oracles) : ChatOutcome :=
  match o.genSql with
  | .error e => ⟨none, none, some (ChatError.genFailed e), 0⟩
  | .ok raw =>
    match validate_sql raw with
    | .error g => ⟨none, none, some (ChatError.guardrailRejected g), 0⟩
    | .ok sql =>
      match o.runQuery sql with
      | .ok df => ⟨some sql, some df, none, 0⟩
      | .error e =>
        match o.fixSql sql e with
        | .error e2 => ⟨some sql, none, some (ChatError.queryFailed e2), 1⟩
        | .ok fixed =>
          match validate_sql fixed with
          | .error g2 => ⟨some sql, none, some (ChatError.queryFailedGuard g2), 1⟩
          | .ok sql2 =>
            match o.runQuery sql2 with
            | .ok df => ⟨some sql2, some df, none, 1⟩
            | .error e3 => ⟨some sql2, none, some (ChatError.queryFailed e3), 1⟩

/-! ## Concrete inputs used by the scenario theorems and witnesses -/

def c7In : List Char := "```sql\nSELECT name FROM customers\n```".data

def c7Out : List Char := "SELECT name FROM customers\nLIMIT 100".data

def scenarioDropIn : List Char := "DROP TABLE users; SELECT * FROM users".data

def kwDROP : List Char := "DROP".data

def c1SelIn : List Char := "SELECT * FROM t; DROP TABLE t".data

def c3ErrIn : List Char := "ERROR: cannot answer".data

def c2In1 : List Char := "SELECT * FROM orders LIMIT 5000".data

def c2Out1 : List Char := "SELECT * FROM orders LIMIT 1000".data

def c2In2 : List Char := "SELECT * FROM orders".data

def c2Out2 : List Char := "SELECT * FROM orders\nLIMIT 100".data

def c2In3 : List Char := "SELECT * FROM orders LIMIT 50".data

def c4In1 : List Char := "```SELECT 1 LIMIT 5;```".data

def c4Mid1 : List Char := "SELECT 1 LIMIT 5;".data

def c4Out1 : List Char := "SELECT 1 LIMIT 5".data

def c4In2 : List Char := "SELECT 1 LIMIT 5 ``````".data

def c4Mid2 : List Char := "SELECT 1 LIMIT 5 ```".data

def c10In1 : List Char := "SELECT a FROM (SELECT b FROM t LIMIT 50) x LIMIT 5000".data

def c10In2 : List Char := "SELECT a FROM (SELECT b FROM t LIMIT 5000) x LIMIT 2000".data

def c10Out2 : List Char := "SELECT a FROM (SELECT b FROM t LIMIT 1000) x LIMIT 1000".data

/-- A fixed oracle for concrete chart evaluations: the date parse declines
every sample and numeric display is irrelevant to the string columns used. -/
def pmFixed : PandasModel := ⟨fun _ => false, fun _ => []⟩

def nameCountry : List Char := "country".data

def nameSales : List Char := "total_sales".data

/-- One-row table with a `country` column and a numeric `total_sales`. -/
def dfCountry1 : Df :=
  ⟨[Col.obj nameCountry [some ("France".data)], Col.num nameSales [some 10]]⟩

/-- Two-row table with a `country` column and a numeric `total_sales`. -/
def dfCountry2 : Df :=
  ⟨[Col.obj nameCountry [some ("France".data), some ("Germany".data)],
    Col.num nameSales [some 10, some 20]]⟩

def isChoroKind : ChartKind → Bool
  | .choropleth _ _ _ => true
  | _ => false

/-- Empty result table (a numeric column with zero rows). -/
def dfNoRows : Df := ⟨[Col.num ("x".data) []]⟩

/-- Oracle for the orchestrator witness: generation yields a rejected text. -/
def oracleReject : Oracles :=
  ⟨Except.ok scenarioDropIn, fun _ => Except.error [], fun _ _ => Except.error []⟩

/-! # Helper lemmas: characters -/

lemma toNat_ofNat_small (m : Nat) (h : m < 55296) : (Char.ofNat m).toNat = m := by
  have hv : m.isValidChar := Or.inl (by omega)
  rw [Char.ofNat, dif_pos hv]
  simp [Char.ofNatAux, Char.toNat, UInt32.toNat]

lemma charToNat_inj {a b : Char} (h : a.toNat = b.toNat) : a = b :=
  Char.ext (UInt32.ext h)

lemma char_eq_iff_toNat {a b : Char} : a = b ↔ a.toNat = b.toNat :=
  ⟨fun h => h ▸ rfl, charToNat_inj⟩

lemma isSpaceChar_iff {c : Char} : isSpaceChar c = true ↔
    c.toNat = 32 ∨ c.toNat = 9 ∨ c.toNat = 10 ∨ c.toNat = 13 ∨ c.toNat = 11 ∨
      c.toNat = 12 := by
  simp only [isSpaceChar, Bool.or_eq_true, beq_iff_eq]
  rw [char_eq_iff_toNat, char_eq_iff_toNat, char_eq_iff_toNat, char_eq_iff_toNat,
    char_eq_iff_toNat, char_eq_iff_toNat]
  simp only [show (' ').toNat = 32 from rfl, show ('\t').toNat = 9 from rfl,
    show ('\n').toNat = 10 from rfl, show ('\r').toNat = 13 from rfl,
    show ('\x0b').toNat = 11 from rfl, show ('\x0c').toNat = 12 from rfl]
  tauto

lemma isLower_iff {c : Char} : c.isLower = true ↔ 97 ≤ c.toNat ∧ c.toNat ≤ 122 := by
  simp only [Char.isLower, Bool.and_eq_true, decide_eq_true_eq, ge_iff_le]
  rw [UInt32.le_def, UInt32.le_def, BitVec.le_def, BitVec.le_def]
  exact Iff.rfl

lemma isUpper_iff {c : Char} : c.isUpper = true ↔ 65 ≤ c.toNat ∧ c.toNat ≤ 90 := by
  simp only [Char.isUpper, Bool.and_eq_true, decide_eq_true_eq, ge_iff_le]
  rw [UInt32.le_def, UInt32.le_def, BitVec.le_def, BitVec.le_def]
  exact Iff.rfl

lemma isDigit_iff {c : Char} : c.isDigit = true ↔ 48 ≤ c.toNat ∧ c.toNat ≤ 57 := by
  simp only [Char.isDigit, Bool.and_eq_true, decide_eq_true_eq, ge_iff_le]
  rw [UInt32.le_def, UInt32.le_def, BitVec.le_def, BitVec.le_def]
  exact Iff.rfl

lemma isAlpha_iff {c : Char} : c.isAlpha = true ↔
    (65 ≤ c.toNat ∧ c.toNat ≤ 90) ∨ (97 ≤ c.toNat ∧ c.toNat ≤ 122) := by
  simp only [Char.isAlpha, Bool.or_eq_true, isUpper_iff, isLower_iff]

lemma isWordChar_iff {c : Char} : isWordChar c = true ↔
    (65 ≤ c.toNat ∧ c.toNat ≤ 90) ∨ (97 ≤ c.toNat ∧ c.toNat ≤ 122) ∨
    (48 ≤ c.toNat ∧ c.toNat ≤ 57) ∨ c.toNat = 95 := by
  simp only [isWordChar, Bool.or_eq_true, isAlpha_iff, isDigit_iff, beq_iff_eq,
    char_eq_iff_toNat, show ('_').toNat = 95 from rfl]
  tauto

lemma toUpper_toNat_lower {c : Char} (h1 : 97 ≤ c.toNat) (h2 : c.toNat ≤ 122) :
    (Char.toUpper c).toNat = c.toNat - 32 := by
  rw [Char.toUpper]
  rw [if_pos ⟨h1, h2⟩]
  exact toNat_ofNat_small _ (by omega)

lemma toUpper_eq_self {c : Char} (h : ¬(97 ≤ c.toNat ∧ c.toNat ≤ 122)) :
    Char.toUpper c = c := by
  rw [Char.toUpper]
  exact if_neg h

lemma toUpper_toNat (c : Char) : (Char.toUpper c).toNat =
    if 97 ≤ c.toNat ∧ c.toNat ≤ 122 then c.toNat - 32 else c.toNat := by
  by_cases h : 97 ≤ c.toNat ∧ c.toNat ≤ 122
  · rw [if_pos h]
    exact toUpper_toNat_lower h.1 h.2
  · rw [if_neg h, toUpper_eq_self h]

lemma ciEqChar_iff {c k : Char} : ciEqChar c k = true ↔
    (Char.toUpper c).toNat = (Char.toUpper k).toNat := by
  simp only [ciEqChar, beq_iff_eq, char_eq_iff_toNat]

lemma ciEq_upper_elim {c k : Char} (hA : 65 ≤ k.toNat) (hZ : k.toNat ≤ 90)
    (h : ciEqChar c k = true) : c.toNat = k.toNat ∨ c.toNat = k.toNat + 32 := by
  rw [ciEqChar_iff, toUpper_toNat, toUpper_toNat,
    if_neg (show ¬(97 ≤ k.toNat ∧ k.toNat ≤ 122) by omega)] at h
  by_cases hc : 97 ≤ c.toNat ∧ c.toNat ≤ 122
  · rw [if_pos hc] at h
    omega
  · rw [if_neg hc] at h
    omega

lemma ciEq_upper_alpha {c k : Char} (hA : 65 ≤ k.toNat) (hZ : k.toNat ≤ 90)
    (h : ciEqChar c k = true) : c.isAlpha = true := by
  rcases ciEq_upper_elim hA hZ h with h1 | h1 <;>
    · rw [isAlpha_iff]
      omega

lemma alpha_word {c : Char} (h : c.isAlpha = true) : isWordChar c = true := by
  rw [isAlpha_iff] at h
  rw [isWordChar_iff]
  tauto

lemma nonalpha_ciEq_false {c k : Char} (hc : c.isAlpha = false)
    (hA : 65 ≤ k.toNat) (hZ : k.toNat ≤ 90) : ciEqChar c k = false := by
  by_contra hne
  rw [Bool.not_eq_false] at hne
  rw [ciEq_upper_alpha hA hZ hne] at hc
  cases hc

lemma space_nonalpha {c : Char} (h : isSpaceChar c = true) : c.isAlpha = false := by
  rw [isSpaceChar_iff] at h
  by_contra hne
  rw [Bool.not_eq_false, isAlpha_iff] at hne
  omega

lemma space_nonword {c : Char} (h : isSpaceChar c = true) : isWordChar c = false := by
  rw [isSpaceChar_iff] at h
  by_contra hne
  rw [Bool.not_eq_false, isWordChar_iff] at hne
  omega

lemma digit_word {c : Char} (h : c.isDigit = true) : isWordChar c = true := by
  rw [isDigit_iff] at h
  rw [isWordChar_iff]
  omega

lemma digit_nonalpha {c : Char} (h : c.isDigit = true) : c.isAlpha = false := by
  rw [isDigit_iff] at h
  by_contra hne
  rw [Bool.not_eq_false, isAlpha_iff] at hne
  omega

lemma nonword_nonalpha {c : Char} (h : isWordChar c = false) : c.isAlpha = false := by
  by_contra hne
  rw [Bool.not_eq_false] at hne
  rw [alpha_word hne] at h
  cases h

lemma isSpace_toUpper (c : Char) : isSpaceChar (Char.toUpper c) = isSpaceChar c := by
  have h := toUpper_toNat c
  by_cases hl : 97 ≤ c.toNat ∧ c.toNat ≤ 122
  · rw [if_pos hl] at h
    have h1 : isSpaceChar (Char.toUpper c) = false := by
      by_contra hne
      rw [Bool.not_eq_false, isSpaceChar_iff] at hne
      omega
    have h2 : isSpaceChar c = false := by
      by_contra hne
      rw [Bool.not_eq_false, isSpaceChar_iff] at hne
      omega
    rw [h1, h2]
  · rw [toUpper_eq_self hl]

/-! # Helper lemmas: positional list access -/

lemma at?_eq_get? (l : List Char) (i : Nat) : at? l i = l.get? i := by
  induction l generalizing i with
  | nil => cases i <;> rfl
  | cons c r ih =>
    cases i with
    | zero => rfl
    | succ j => exact ih j

lemma at?_append_left {a : List Char} (b : List Char) {i : Nat} (h : i < a.length) :
    at? (a ++ b) i = at? a i := by
  rw [at?_eq_get?, at?_eq_get?]
  exact List.get?_append h

lemma at?_append_right {a : List Char} (b : List Char) {i : Nat} (h : a.length ≤ i) :
    at? (a ++ b) i = at? b (i - a.length) := by
  rw [at?_eq_get?, at?_eq_get?]
  exact List.get?_append_right h

lemma at?_drop (l : List Char) (n j : Nat) : at? (l.drop n) j = at? l (n + j) := by
  rw [at?_eq_get?, at?_eq_get?]
  exact List.get?_drop l n j

lemma at?_take {l : List Char} (n : Nat) {j : Nat} (h : j < n) :
    at? (l.take n) j = at? l j := by
  rw [at?_eq_get?, at?_eq_get?]
  exact List.get?_take h

lemma at?_map (f : Char → Char) (l : List Char) (i : Nat) :
    at? (l.map f) i = (at? l i).map f := by
  rw [at?_eq_get?, at?_eq_get?]
  exact List.get?_map f l i

lemma at?_eq_none_iff {l : List Char} {i : Nat} : at? l i = none ↔ l.length ≤ i := by
  rw [at?_eq_get?]
  exact List.get?_eq_none

lemma at?_some_of_lt {l : List Char} {i : Nat} (h : i < l.length) :
    ∃ c, at? l i = some c := by
  rcases hc : at? l i with _ | c
  · rw [at?_eq_none_iff] at hc
    omega
  · exact ⟨c, rfl⟩

lemma at?_lt_of_some {l : List Char} {i : Nat} {c : Char} (h : at? l i = some c) :
    i < l.length := by
  by_contra hle
  rw [at?_eq_none_iff.mpr (by omega)] at h
  cases h

lemma at?_mem {l : List Char} {i : Nat} {c : Char} (h : at? l i = some c) : c ∈ l := by
  rw [at?_eq_get?] at h
  exact List.get?_mem h

lemma at?_cons_succ (c : Char) (l : List Char) (i : Nat) :
    at? (c :: l) (i + 1) = at? l i := rfl

lemma at?_head {c : Char} {l : List Char} : at? (c :: l) 0 = some c := rfl

/-! # Helper lemmas: prefix tests and scans -/

lemma listPfx_iff {p s : List Char} : listPfx p s = true ↔
    ∀ j < p.length, ∃ c, at? p j = some c ∧ at? s j = some c := by
  induction p generalizing s with
  | nil =>
    simp only [listPfx, List.length_nil]
    constructor
    · intro _ j hj
      omega
    · intro _
      trivial
  | cons a p ih =>
    cases s with
    | nil =>
      simp only [listPfx, List.length_cons]
      constructor
      · intro h
        cases h
      · intro h
        rcases h 0 (by omega) with ⟨c, _, hc2⟩
        cases hc2
    | cons b t =>
      simp only [listPfx, Bool.and_eq_true, beq_iff_eq, ih, List.length_cons]
      constructor
      · rintro ⟨rfl, hrest⟩ j hj
        cases j with
        | zero => exact ⟨a, rfl, rfl⟩
        | succ j2 =>
          rcases hrest j2 (by omega) with ⟨c, hc1, hc2⟩
          exact ⟨c, hc1, hc2⟩
      · intro h
        constructor
        · rcases h 0 (by omega) with ⟨c, hc1, hc2⟩
          cases hc1
          cases hc2
          rfl
        · intro j hj
          rcases h (j + 1) (by omega) with ⟨c, hc1, hc2⟩
          exact ⟨c, hc1, hc2⟩

lemma ciPfx_iff {kw s : List Char} : ciPfx kw s = true ↔
    ∀ j < kw.length, ∃ c k, at? s j = some c ∧ at? kw j = some k ∧
      ciEqChar c k = true := by
  induction kw generalizing s with
  | nil =>
    simp only [ciPfx, List.length_nil]
    constructor
    · intro _ j hj
      omega
    · intro _
      trivial
  | cons a p ih =>
    cases s with
    | nil =>
      simp only [ciPfx, List.length_cons]
      constructor
      · intro h
        cases h
      · intro h
        rcases h 0 (by omega) with ⟨c, k, hc, _, _⟩
        cases hc
    | cons b t =>
      simp only [ciPfx, Bool.and_eq_true, ih, List.length_cons]
      constructor
      · rintro ⟨hab, hrest⟩ j hj
        cases j with
        | zero => exact ⟨b, a, rfl, rfl, hab⟩
        | succ j2 =>
          rcases hrest j2 (by omega) with ⟨c, k, h1, h2, h3⟩
          exact ⟨c, k, h1, h2, h3⟩
      · intro h
        constructor
        · rcases h 0 (by omega) with ⟨c, k, h1, h2, h3⟩
          cases h1
          cases h2
          exact h3
        · intro j hj
          rcases h (j + 1) (by omega) with ⟨c, k, h1, h2, h3⟩
          exact ⟨c, k, h1, h2, h3⟩

lemma cntWhile_spec (p : Char → Bool) (l : List Char) :
    (∀ j < cntWhile p l, ∃ c, at? l j = some c ∧ p c = true) ∧
      (at? l (cntWhile p l) = none ∨
        ∃ c, at? l (cntWhile p l) = some c ∧ p c = false) := by
  induction l with
  | nil =>
    constructor
    · intro j hj
      simp [cntWhile, List.takeWhile] at hj
    · left
      rfl
  | cons a t ih =>
    by_cases hp : p a = true
    · have hcnt : cntWhile p (a :: t) = cntWhile p t + 1 := by
        simp [cntWhile, List.takeWhile, hp]
      rw [hcnt]
      constructor
      · intro j hj
        cases j with
        | zero => exact ⟨a, rfl, hp⟩
        | succ j2 =>
          rcases ih.1 j2 (by omega) with ⟨c, h1, h2⟩
          exact ⟨c, h1, h2⟩
      · rcases ih.2 with h | ⟨c, h1, h2⟩
        · left
          exact h
        · right
          exact ⟨c, h1, h2⟩
    · have hcnt : cntWhile p (a :: t) = 0 := by
        simp [cntWhile, List.takeWhile, hp]
      rw [hcnt]
      constructor
      · intro j hj
        omega
      · right
        exact ⟨a, rfl, by rw [Bool.eq_false_iff]; exact fun hc => hp hc⟩

lemma cntWhile_eq_of (p : Char → Bool) (l : List Char) (w : Nat)
    (h1 : ∀ j < w, ∃ c, at? l j = some c ∧ p c = true)
    (h2 : at? l w = none ∨ ∃ c, at? l w = some c ∧ p c = false) :
    cntWhile p l = w := by
  rcases Nat.lt_trichotomy (cntWhile p l) w with hlt | heq | hgt
  · rcases h1 (cntWhile p l) hlt with ⟨c, hc1, hc2⟩
    rcases (cntWhile_spec p l).2 with hn | ⟨c2, hn1, hn2⟩
    · rw [hn] at hc1
      cases hc1
    · rw [hn1] at hc1
      cases hc1
      rw [hc2] at hn2
      cases hn2
  · exact heq
  · rcases (cntWhile_spec p l).1 w hgt with ⟨c, hc1, hc2⟩
    rcases h2 with hn | ⟨c2, hn1, hn2⟩
    · rw [hn] at hc1
      cases hc1
    · rw [hn1] at hc1
      cases hc1
      rw [hc2] at hn2
      cases hn2

/-! # Helper lemmas: whole-word keyword occurrences -/

lemma hasKwP_iff {pv : Bool} {kw s : List Char} :
    hasKwP pv kw s = true ↔ ∃ i, i ≤ s.length ∧ kwOccursAtP pv kw s i = true := by
  simp only [hasKwP, List.any_eq_true, List.mem_range]
  constructor
  · rintro ⟨i, hi, hocc⟩
    exact ⟨i, by omega, hocc⟩
  · rintro ⟨i, hi, hocc⟩
    exact ⟨i, by omega, hocc⟩

lemma occ_parts {pv : Bool} {kw s : List Char} {i : Nat} :
    kwOccursAtP pv kw s i = true ↔
      bdBefore pv s i = true ∧ ciPfx kw (s.drop i) = true ∧
        bdAfter s (i + kw.length) = true := by
  simp only [kwOccursAtP, Bool.and_eq_true]
  tauto

lemma bdAfter_true_iff {s : List Char} {i : Nat} : bdAfter s i = true ↔
    (at? s i = none ∨ ∃ c, at? s i = some c ∧ isWordChar c = false) := by
  rcases h : at? s i with _ | c
  · simp only [bdAfter, h]
    tauto
  · simp only [bdAfter, h, Bool.not_eq_true']
    constructor
    · intro hw
      exact Or.inr ⟨c, rfl, hw⟩
    · rintro (hn | ⟨c2, hc2, hw⟩)
      · cases hn
      · cases hc2
        exact hw

lemma bdBefore_succ_iff {pv : Bool} {s : List Char} {j : Nat} :
    bdBefore pv s (j + 1) = true ↔
      (at? s j = none ∨ ∃ c, at? s j = some c ∧ isWordChar c = false) := by
  rcases h : at? s j with _ | c
  · simp only [bdBefore, h]
    tauto
  · simp only [bdBefore, h, Bool.not_eq_true']
    constructor
    · intro hw
      exact Or.inr ⟨c, rfl, hw⟩
    · rintro (hn | ⟨c2, hc2, hw⟩)
      · cases hn
      · cases hc2
        exact hw

lemma bdBefore_zero {pv : Bool} {s : List Char} :
    bdBefore pv s 0 = true ↔ pv = false := by
  simp only [bdBefore, Bool.not_eq_true']

/-- The characters covered by a case-insensitive match of an all-uppercase
keyword are alphabetic. -/
lemma occ_chars_alpha {kw s : List Char} {i : Nat}
    (hAZ : ∀ k ∈ kw, 65 ≤ k.toNat ∧ k.toNat ≤ 90)
    (hci : ciPfx kw (s.drop i) = true) :
    ∀ j < kw.length, ∃ c, at? s (i + j) = some c ∧ c.isAlpha = true := by
  intro j hj
  rcases ciPfx_iff.mp hci j hj with ⟨c, k, hc, hk, hcik⟩
  rw [at?_drop] at hc
  refine ⟨c, hc, ?_⟩
  rcases hAZ k (at?_mem hk) with ⟨h65, h90⟩
  exact ciEq_upper_alpha h65 h90 hcik

/-- A keyword occurrence fits inside the part of the string before a
non-alphabetic tail: removing such a tail keeps the occurrence. -/
lemma occ_suffix_drop {pv : Bool} {kw t q : List Char} {i : Nat}
    (hAZ : ∀ k ∈ kw, 65 ≤ k.toNat ∧ k.toNat ≤ 90) (hne : kw ≠ [])
    (hq : ∀ c ∈ q, c.isAlpha = false)
    (hocc : kwOccursAtP pv kw (t ++ q) i = true) :
    kwOccursAtP pv kw t i = true := by
  rcases occ_parts.mp hocc with ⟨hb, hc, ha⟩
  have hchars := occ_chars_alpha hAZ hc
  have hfit : i + kw.length ≤ t.length := by
    by_contra hcon
    have hklen : 0 < kw.length := List.length_pos.mpr hne
    have hj : t.length ≤ i + (kw.length - 1) ∧ i + (kw.length - 1) < i + kw.length := by
      constructor
      · by_contra hcon2
        have hi : i + kw.length ≤ t.length := by omega
        exact hcon hi
      · omega
    rcases hchars (kw.length - 1) (by omega) with ⟨c, hcsome, hcalpha⟩
    by_cases hlen : i + (kw.length - 1) < (t ++ q).length
    · rw [at?_append_right q hj.1] at hcsome
      have := hq c (at?_mem hcsome)
      rw [this] at hcalpha
      cases hcalpha
    · rw [at?_eq_none_iff.mpr (by omega)] at hcsome
      cases hcsome
  rw [occ_parts]
  refine ⟨?_, ?_, ?_⟩
  · cases i with
    | zero => exact hb
    | succ j =>
      rw [bdBefore_succ_iff] at hb ⊢
      rw [at?_append_left q (by omega)] at hb
      exact hb
  · rw [ciPfx_iff] at hc ⊢
    intro j hj
    rcases hc j hj with ⟨c, k, h1, h2, h3⟩
    rw [at?_drop] at h1
    rw [at?_append_left q (by omega)] at h1
    refine ⟨c, k, ?_, h2, h3⟩
    rw [at?_drop]
    exact h1
  · rw [bdAfter_true_iff]
    by_cases hend : i + kw.length = t.length
    · left
      rw [at?_eq_none_iff]
      omega
    · rw [bdAfter_true_iff] at ha
      rw [at?_append_left q (by omega)] at ha
      exact ha

/-- A keyword occurrence survives appending a tail whose first character is
not a word character. -/
lemma occ_append {pv : Bool} {kw t q : List Char} {i : Nat} (hne : kw ≠ [])
    (hq : at? q 0 = none ∨ ∃ c0, at? q 0 = some c0 ∧ isWordChar c0 = false)
    (hocc : kwOccursAtP pv kw t i = true) :
    kwOccursAtP pv kw (t ++ q) i = true := by
  rcases occ_parts.mp hocc with ⟨hb, hc, ha⟩
  have hklen : 0 < kw.length := List.length_pos.mpr hne
  have hfit : ∀ j < kw.length, i + j < t.length := by
    intro j hj
    rcases ciPfx_iff.mp hc j hj with ⟨c, k, h1, _, _⟩
    rw [at?_drop] at h1
    exact at?_lt_of_some h1
  have hfit0 : i < t.length := by
    have := hfit 0 hklen
    omega
  have hfitlast : i + kw.length ≤ t.length := by
    have := hfit (kw.length - 1) (by omega)
    omega
  rw [occ_parts]
  refine ⟨?_, ?_, ?_⟩
  · cases i with
    | zero => exact hb
    | succ j =>
      rw [bdBefore_succ_iff] at hb ⊢
      rcases hb with hn | ⟨c, h1, h2⟩
      · rw [at?_eq_none_iff] at hn
        omega
      · right
        refine ⟨c, ?_, h2⟩
        rw [at?_append_left q (at?_lt_of_some h1)]
        exact h1
  · rw [ciPfx_iff] at hc ⊢
    intro j hj
    rcases hc j hj with ⟨c, k, h1, h2, h3⟩
    rw [at?_drop] at h1
    refine ⟨c, k, ?_, h2, h3⟩
    rw [at?_drop, at?_append_left q (hfit j hj)]
    exact h1
  · rw [bdAfter_true_iff]
    by_cases hend : i + kw.length = t.length
    · rcases hq with hq0 | ⟨c0, hq1, hq2⟩
      · left
        rw [at?_eq_none_iff, List.length_append]
        rw [at?_eq_none_iff] at hq0
        omega
      · right
        refine ⟨c0, ?_, hq2⟩
        rw [at?_append_right q (by omega), hend, Nat.sub_self]
        exact hq1
    · rw [bdAfter_true_iff] at ha
      rcases ha with hn | ⟨c, h1, h2⟩
      · rw [at?_eq_none_iff] at hn
        omega
      · right
        refine ⟨c, ?_, h2⟩
        rw [at?_append_left q (at?_lt_of_some h1)]
        exact h1

lemma occ_lt_len {pv : Bool} {kw t : List Char} {i : Nat} (hne : kw ≠ [])
    (hocc : kwOccursAtP pv kw t i = true) : i < t.length := by
  rcases occ_parts.mp hocc with ⟨_, hc, _⟩
  have hklen : 0 < kw.length := List.length_pos.mpr hne
  rcases ciPfx_iff.mp hc 0 hklen with ⟨c, k, h1, _, _⟩
  rw [at?_drop] at h1
  have := at?_lt_of_some h1
  omega

/-- An occurrence in a string with a prefix removed, provided no character of
the prefix can begin the keyword. -/
lemma occ_prefix_drop {pv : Bool} {kw p t : List Char} {i : Nat} (hne : kw ≠ [])
    (hp : ∀ c ∈ p, ∀ k, at? kw 0 = some k → ciEqChar c k = false)
    (hocc : kwOccursAtP pv kw (p ++ t) i = true) :
    kwOccursAtP false kw t (i - p.length) = true := by
  rcases occ_parts.mp hocc with ⟨hb, hc, ha⟩
  have hklen : 0 < kw.length := List.length_pos.mpr hne
  have hip : p.length ≤ i := by
    by_contra hcon
    rcases ciPfx_iff.mp hc 0 hklen with ⟨c, k, h1, h2, h3⟩
    rw [at?_drop, Nat.add_zero] at h1
    rw [at?_append_left t (by omega)] at h1
    rw [hp c (at?_mem h1) k h2] at h3
    cases h3
  rw [occ_parts]
  refine ⟨?_, ?_, ?_⟩
  · rcases Nat.eq_or_lt_of_le hip with heq | hlt
    · rw [← heq, Nat.sub_self]
      exact bdBefore_zero.mpr rfl
    · have h2 : i - p.length = (i - p.length - 1) + 1 := by omega
      rw [h2, bdBefore_succ_iff]
      have h3 : i = (i - 1) + 1 := by omega
      rw [h3, bdBefore_succ_iff] at hb
      rw [at?_append_right t (by omega)] at hb
      have h4 : i - 1 - p.length = i - p.length - 1 := by omega
      rw [h4] at hb
      exact hb
  · rw [ciPfx_iff] at hc ⊢
    intro j hj
    rcases hc j hj with ⟨c, k, h1, h2, h3⟩
    rw [at?_drop] at h1
    rw [at?_append_right t (by omega)] at h1
    refine ⟨c, k, ?_, h2, h3⟩
    rw [at?_drop]
    have h4 : i + j - p.length = i - p.length + j := by omega
    rw [h4] at h1
    exact h1
  · rw [bdAfter_true_iff] at ha ⊢
    rw [at?_append_right t (by omega)] at ha
    have h4 : i + kw.length - p.length = i - p.length + kw.length := by omega
    rw [h4] at ha
    exact ha

/-- No whole-word occurrence of an all-uppercase keyword inside a string of
non-alphabetic characters. -/
lemma no_occ_nonalpha {pv : Bool} {kw q : List Char} (hne : kw ≠ [])
    (hAZ : ∀ k ∈ kw, 65 ≤ k.toNat ∧ k.toNat ≤ 90)
    (hq : ∀ c ∈ q, c.isAlpha = false) : hasKwP pv kw q = false := by
  by_contra hcon
  rw [Bool.not_eq_false, hasKwP_iff] at hcon
  rcases hcon with ⟨i, _, hocc⟩
  rcases occ_parts.mp hocc with ⟨_, hc, _⟩
  have hklen : 0 < kw.length := List.length_pos.mpr hne
  rcases occ_chars_alpha hAZ hc 0 hklen with ⟨c, h1, h2⟩
  rw [Nat.add_zero] at h1
  rw [hq c (at?_mem h1)] at h2
  cases h2

/-- An occurrence under entry flag `true` cannot be at position 0, so the
entry flag may be weakened arbitrarily. -/
lemma hasKwP_flag_relax {kw s : List Char} (pv : Bool)
    (h : hasKwP true kw s = true) : hasKwP pv kw s = true := by
  rw [hasKwP_iff] at h ⊢
  rcases h with ⟨i, hi, hocc⟩
  cases i with
  | zero =>
    rcases occ_parts.mp hocc with ⟨hb, _, _⟩
    rw [bdBefore_zero] at hb
    cases hb
  | succ j =>
    refine ⟨j + 1, hi, ?_⟩
    rcases occ_parts.mp hocc with ⟨hb, hc, ha⟩
    rw [occ_parts]
    rw [bdBefore_succ_iff] at hb
    exact ⟨bdBefore_succ_iff.mpr hb, hc, ha⟩

/-- Lifting an occurrence from a `cons` tail, with the entry flag matching
the head character. -/
lemma hasKwP_cons_iff {pv : Bool} {kw : List Char} {c : Char} {l : List Char} :
    hasKwP pv kw (c :: l) = true ↔
      kwOccursAtP pv kw (c :: l) 0 = true ∨ hasKwP (isWordChar c) kw l = true := by
  constructor
  · intro h
    rcases hasKwP_iff.mp h with ⟨i, hi, hocc⟩
    cases i with
    | zero => exact Or.inl hocc
    | succ j =>
      right
      rw [hasKwP_iff]
      refine ⟨j, by simpa using hi, ?_⟩
      rcases occ_parts.mp hocc with ⟨hb, hc, ha⟩
      rw [occ_parts]
      refine ⟨?_, ?_, ?_⟩
      · cases j with
        | zero =>
          rw [bdBefore_succ_iff] at hb
          rcases hb with hn | ⟨c2, h1, h2⟩
          · cases hn
          · rw [at?_head] at h1
            cases h1
            rw [bdBefore_zero]
            exact h2
        | succ j2 =>
          rw [bdBefore_succ_iff] at hb ⊢
          rw [at?_cons_succ] at hb
          exact hb
      · rw [List.drop_succ_cons] at hc
        exact hc
      · rw [bdAfter_true_iff] at ha ⊢
        rw [show j + 1 + kw.length = (j + kw.length) + 1 from by omega,
          at?_cons_succ] at ha
        exact ha
  · intro h
    rcases h with hocc | h
    · rw [hasKwP_iff]
      exact ⟨0, by omega, hocc⟩
    · rcases hasKwP_iff.mp h with ⟨j, hj, hocc⟩
      rw [hasKwP_iff]
      refine ⟨j + 1, by simpa using hj, ?_⟩
      rcases occ_parts.mp hocc with ⟨hb, hc, ha⟩
      rw [occ_parts]
      refine ⟨?_, ?_, ?_⟩
      · cases j with
        | zero =>
          rw [bdBefore_zero] at hb
          rw [bdBefore_succ_iff]
          exact Or.inr ⟨c, at?_head, hb⟩
        | succ j2 =>
          rw [bdBefore_succ_iff] at hb ⊢
          rw [at?_cons_succ]
          exact hb
      · rw [List.drop_succ_cons]
        exact hc
      · rw [bdAfter_true_iff] at ha ⊢
        rw [show j + 1 + kw.length = (j + kw.length) + 1 from by omega,
          at?_cons_succ]
        exact ha

/-- Lifting an occurrence from a dropped suffix scanned under flag `true`. -/
lemma hasKwP_drop_lift {kw s : List Char} {n : Nat} (pv : Bool)
    (h : hasKwP true kw (s.drop n) = true) : hasKwP pv kw s = true := by
  induction n generalizing s pv with
  | zero =>
    rw [List.drop_zero] at h
    exact hasKwP_flag_relax pv h
  | succ m ih =>
    cases s with
    | nil =>
      rw [List.drop_nil] at h
      exact hasKwP_flag_relax pv h
    | cons c rest =>
      rw [List.drop_succ_cons] at h
      have h2 := ih (isWordChar c) h
      exact hasKwP_cons_iff.mpr (Or.inr h2)

/-- Splitting an occurrence over a concatenation whose right part begins
with a non-word character (or is empty): the occurrence lies wholly in one
part. -/
lemma hasKwP_split {pv : Bool} {kw t q : List Char} (hne : kw ≠ [])
    (hAZ : ∀ k ∈ kw, 65 ≤ k.toNat ∧ k.toNat ≤ 90)
    (hq : at? q 0 = none ∨ ∃ c0, at? q 0 = some c0 ∧ isWordChar c0 = false)
    (h : hasKwP pv kw (t ++ q) = true) :
    hasKwP pv kw t = true ∨ hasKwP true kw q = true := by
  rcases hasKwP_iff.mp h with ⟨i, hi, hocc⟩
  rcases occ_parts.mp hocc with ⟨hb, hc, ha⟩
  have hklen : 0 < kw.length := List.length_pos.mpr hne
  have hchars := occ_chars_alpha hAZ hc
  have hnotmid : ¬(i ≤ t.length ∧ t.length < i + kw.length) := by
    rintro ⟨h1, h2⟩
    rcases hchars (t.length - i) (by omega) with ⟨c, hcs, hca⟩
    rw [show i + (t.length - i) = t.length from by omega] at hcs
    rw [at?_append_right q (by omega), Nat.sub_self] at hcs
    rcases hq with hq0 | ⟨c0, hq1, hq2⟩
    · rw [hq0] at hcs
      cases hcs
    · rw [hq1] at hcs
      cases hcs
      rw [nonword_nonalpha hq2] at hca
      cases hca
  by_cases hcase : i + kw.length ≤ t.length
  · left
    rw [hasKwP_iff]
    refine ⟨i, by omega, ?_⟩
    rw [occ_parts]
    refine ⟨?_, ?_, ?_⟩
    · cases i with
      | zero => exact hb
      | succ j =>
        rw [bdBefore_succ_iff] at hb ⊢
        rw [at?_append_left q (by omega)] at hb
        exact hb
    · rw [ciPfx_iff] at hc ⊢
      intro j hj
      rcases hc j hj with ⟨c, k, h1, h2, h3⟩
      rw [at?_drop] at h1
      rw [at?_append_left q (by omega)] at h1
      refine ⟨c, k, ?_, h2, h3⟩
      rw [at?_drop]
      exact h1
    · rw [bdAfter_true_iff]
      by_cases hend : i + kw.length = t.length
      · left
        rw [at?_eq_none_iff]
        omega
      · rw [bdAfter_true_iff] at ha
        rw [at?_append_left q (by omega)] at ha
        exact ha
  · right
    have hit : t.length < i := by
      by_cases h1 : i ≤ t.length
      · exact absurd ⟨h1, by omega⟩ hnotmid
      · omega
    rw [hasKwP_iff]
    refine ⟨i - t.length, by rw [List.length_append] at hi; omega, ?_⟩
    rw [occ_parts]
    refine ⟨?_, ?_, ?_⟩
    · have h2 : i - t.length = (i - t.length - 1) + 1 := by omega
      rw [h2, bdBefore_succ_iff]
      have h3 : i = (i - 1) + 1 := by omega
      rw [h3, bdBefore_succ_iff] at hb
      rw [at?_append_right q (by omega)] at hb
      rw [show i - 1 - t.length = i - t.length - 1 from by omega] at hb
      exact hb
    · rw [ciPfx_iff] at hc ⊢
      intro j hj
      rcases hc j hj with ⟨c, k, h1, h2, h3⟩
      rw [at?_drop] at h1
      rw [at?_append_right q (by omega)] at h1
      refine ⟨c, k, ?_, h2, h3⟩
      rw [at?_drop]
      rw [show i + j - t.length = i - t.length + j from by omega] at h1
      exact h1
    · rw [bdAfter_true_iff] at ha ⊢
      rw [at?_append_right q (by omega)] at ha
      rw [show i + kw.length - t.length = i - t.length + kw.length from by omega]
        at ha
      exact ha

lemma blocked_AZ : ∀ kw ∈ BLOCKED_KEYWORDS, ∀ k ∈ kw,
    65 ≤ k.toNat ∧ k.toNat ≤ 90 := by decide

lemma blocked_ne : ∀ kw ∈ BLOCKED_KEYWORDS, kw ≠ [] := by decide

/-! # Helper lemmas: keyword survival through canonicalization -/

lemma mem_at? {l : List Char} {c : Char} (h : c ∈ l) : ∃ i, at? l i = some c := by
  rcases List.mem_iff_get?.mp h with ⟨i, hi⟩
  exact ⟨i, by rw [at?_eq_get?]; exact hi⟩

lemma takeWhile_all (p : Char → Bool) (l : List Char) :
    ∀ c ∈ l.takeWhile p, p c = true := by
  induction l with
  | nil =>
    intro c hc
    cases hc
  | cons a t ih =>
    intro c hc
    by_cases hp : p a = true
    · rw [List.takeWhile_cons, if_pos hp] at hc
      rcases List.mem_cons.mp hc with rfl | hc2
      · exact hp
      · exact ih c hc2
    · rw [List.takeWhile_cons, if_neg hp] at hc
      cases hc

lemma rdrop_decomp (p : Char → Bool) (l : List Char) :
    ∃ q, l = rdrop p l ++ q ∧ ∀ c ∈ q, p c = true := by
  refine ⟨(l.reverse.takeWhile p).reverse, ?_, ?_⟩
  · rw [rdrop]
    conv_lhs => rw [← List.reverse_reverse l]
    rw [← List.reverse_append]
    congr 1
    rw [List.takeWhile_append_dropWhile]
  · intro c hc
    rw [List.mem_reverse] at hc
    exact takeWhile_all p l.reverse c hc

lemma listPfx_decomp {p s : List Char} (h : listPfx p s = true) :
    s = p ++ s.drop p.length := by
  have hlen : p.length ≤ s.length := by
    by_contra hcon
    rcases at?_some_of_lt (show s.length < p.length from by omega) with ⟨c, hc⟩
    rcases listPfx_iff.mp h s.length (by omega) with ⟨c2, _, hc2⟩
    rw [at?_eq_none_iff.mpr (by omega)] at hc2
    cases hc2
  conv_lhs => rw [← List.take_append_drop p.length s]
  congr 1
  apply List.ext_get?
  intro i
  by_cases hi : i < p.length
  · rw [← at?_eq_get?, ← at?_eq_get?, at?_take p.length hi]
    rcases listPfx_iff.mp h i hi with ⟨c, h1, h2⟩
    rw [h1, h2]
  · have hp1 : at? p i = none := at?_eq_none_iff.mpr (by omega)
    have ht1 : at? (s.take p.length) i = none := by
      rw [at?_eq_none_iff, List.length_take]
      omega
    rw [← at?_eq_get?, ← at?_eq_get?, ht1, hp1]

lemma listSfx_decomp {q s : List Char} (h : listSfx q s = true) :
    s = s.take (s.length - q.length) ++ q := by
  rw [listSfx] at h
  have h2 := listPfx_decomp h
  have h3 := congrArg List.reverse h2
  rw [List.reverse_reverse, List.reverse_append, List.reverse_reverse] at h3
  rw [List.length_reverse, List.reverse_drop, List.reverse_reverse,
    List.length_reverse] at h3
  exact h3

lemma hasKw_prefix_drop {kw p t : List Char} (hne : kw ≠ [])
    (hp : ∀ c ∈ p, ∀ k, at? kw 0 = some k → ciEqChar c k = false)
    (h : hasKwP false kw (p ++ t) = true) : hasKwP false kw t = true := by
  rcases hasKwP_iff.mp h with ⟨i, _, hocc⟩
  have h2 := occ_prefix_drop hne hp hocc
  rw [hasKwP_iff]
  exact ⟨i - p.length, by have := occ_lt_len hne h2; omega, h2⟩

lemma hasKw_suffix_drop {pv : Bool} {kw t q : List Char} (hne : kw ≠ [])
    (hAZ : ∀ k ∈ kw, 65 ≤ k.toNat ∧ k.toNat ≤ 90)
    (hq : ∀ c ∈ q, c.isAlpha = false)
    (h : hasKwP pv kw (t ++ q) = true) : hasKwP pv kw t = true := by
  rcases hasKwP_iff.mp h with ⟨i, _, hocc⟩
  have h2 := occ_suffix_drop hAZ hne hq hocc
  rw [hasKwP_iff]
  exact ⟨i, by have := occ_lt_len hne h2; omega, h2⟩

lemma hasKw_append_keep {pv : Bool} {kw t q : List Char} (hne : kw ≠ [])
    (hq : at? q 0 = none ∨ ∃ c0, at? q 0 = some c0 ∧ isWordChar c0 = false)
    (h : hasKwP pv kw t = true) : hasKwP pv kw (t ++ q) = true := by
  rcases hasKwP_iff.mp h with ⟨i, hi, hocc⟩
  rw [hasKwP_iff]
  exact ⟨i, by rw [List.length_append]; omega, occ_append hne hq hocc⟩

/-- Keyword-shaped lists: nonempty, all characters uppercase letters, and the
first character is not S, Q or L (so it cannot begin inside a stripped code
fence tag).  All entries of `BLOCKED_KEYWORDS` qualify. -/
def kwShape (kw : List Char) : Prop :=
  kw ≠ [] ∧ (∀ k ∈ kw, 65 ≤ k.toNat ∧ k.toNat ≤ 90) ∧
    (∀ k, at? kw 0 = some k → k.toNat ≠ 83 ∧ k.toNat ≠ 81 ∧ k.toNat ≠ 76)

lemma blocked_shape : ∀ kw ∈ BLOCKED_KEYWORDS, kwShape kw := by
  intro kw hkw
  refine ⟨blocked_ne kw hkw, blocked_AZ kw hkw, ?_⟩
  revert hkw
  revert kw
  decide

lemma kwShape_hp_nonalpha {kw p : List Char} (hAZ : ∀ k ∈ kw, 65 ≤ k.toNat ∧ k.toNat ≤ 90)
    (hpa : ∀ c ∈ p, c.isAlpha = false) :
    ∀ c ∈ p, ∀ k, at? kw 0 = some k → ciEqChar c k = false := by
  intro c hc k hk
  rcases hAZ k (at?_mem hk) with ⟨h1, h2⟩
  exact nonalpha_ciEq_false (hpa c hc) h1 h2

lemma kwKeep_lstrip {kw s : List Char} (hs : kwShape kw)
    (h : hasKwP false kw s = true) : hasKwP false kw (lstripWS s) = true := by
  have hdec : s = s.takeWhile isSpaceChar ++ lstripWS s := by
    rw [lstripWS, List.takeWhile_append_dropWhile]
  rw [hdec] at h
  refine hasKw_prefix_drop hs.1 ?_ h
  apply kwShape_hp_nonalpha hs.2.1
  intro c hc
  exact space_nonalpha (takeWhile_all _ s c hc)

lemma kwKeep_rdropWS {kw s : List Char} (hs : kwShape kw)
    (h : hasKwP false kw s = true) : hasKwP false kw (rstripWS s) = true := by
  rcases rdrop_decomp isSpaceChar s with ⟨q, hdec, hq⟩
  rw [rstripWS] at *
  rw [hdec] at h
  refine hasKw_suffix_drop hs.1 hs.2.1 ?_ h
  intro c hc
  exact space_nonalpha (hq c hc)

lemma kwKeep_pyStrip {kw s : List Char} (hs : kwShape kw)
    (h : hasKwP false kw s = true) : hasKwP false kw (pyStrip s) = true :=
  kwKeep_rdropWS hs (kwKeep_lstrip hs h)

lemma kwKeep_rstripSemi {kw s : List Char} (hs : kwShape kw)
    (h : hasKwP false kw s = true) : hasKwP false kw (rstripSemi s) = true := by
  rcases rdrop_decomp (fun c => c == ';') s with ⟨q, hdec, hq⟩
  rw [rstripSemi]
  rw [hdec] at h
  refine hasKw_suffix_drop hs.1 hs.2.1 ?_ h
  intro c hc
  have := hq c hc
  rw [beq_iff_eq] at this
  rw [this]
  decide

lemma kwKeep_fenceHead {kw s : List Char} (hs : kwShape kw)
    (h : hasKwP false kw s = true) : hasKwP false kw (stripFenceHead s) = true := by
  rw [stripFenceHead]
  by_cases h1 : listPfx ("```".data) s = true
  · rw [if_pos h1]
    have hdec := listPfx_decomp h1
    rw [hdec] at h
    have h2 : hasKwP false kw (s.drop 3) = true := by
      refine hasKw_prefix_drop hs.1 ?_ h
      apply kwShape_hp_nonalpha hs.2.1
      intro c hc
      have hcc : c = '`' := by
        have h9 : ("```".data) = ['`', '`', '`'] := rfl
        rw [h9] at hc
        rcases List.mem_cons.mp hc with rfl | hc1
        · rfl
        rcases List.mem_cons.mp hc1 with rfl | hc2
        · rfl
        rcases List.mem_cons.mp hc2 with rfl | hc3
        · rfl
        · cases hc3
      rw [hcc]
      decide
    show hasKwP false kw
        (lstripWS (if ciPfx ("sql".data) (s.drop 3) = true then (s.drop 3).drop 3
          else s.drop 3)) = true
    by_cases h3 : ciPfx ("sql".data) (s.drop 3) = true
    · rw [if_pos h3]
      have hdec2 : s.drop 3 = (s.drop 3).take 3 ++ (s.drop 3).drop 3 :=
        (List.take_append_drop 3 (s.drop 3)).symm
      rw [hdec2] at h2
      have h4 : hasKwP false kw ((s.drop 3).drop 3) = true := by
        refine hasKw_prefix_drop hs.1 ?_ h2
        intro c hc k hk
        rcases mem_at? hc with ⟨j, hj⟩
        have hjlt : j < 3 := by
          have := at?_lt_of_some hj
          rw [List.length_take] at this
          omega
        rw [at?_take 3 hjlt] at hj
        rcases ciPfx_iff.mp h3 j
          (show j < ("sql".data).length from by
            rw [show ("sql".data).length = 3 from rfl]
            omega) with ⟨c2, k2, hc2, hk2, hcik2⟩
        rw [hj] at hc2
        cases hc2
        have hku : (Char.toUpper k).toNat = k.toNat := by
          rcases hs.2.1 k (at?_mem hk) with ⟨hA, hZ⟩
          rw [toUpper_toNat, if_neg (by omega)]
        by_contra hcon
        rw [Bool.not_eq_false] at hcon
        have h5 : (Char.toUpper c).toNat = k.toNat := by
          rw [← hku]
          exact ciEqChar_iff.mp hcon
        have h6 : (Char.toUpper c).toNat = (Char.toUpper k2).toNat :=
          ciEqChar_iff.mp hcik2
        have h7 : (Char.toUpper k2).toNat = 83 ∨ (Char.toUpper k2).toNat = 81 ∨
            (Char.toUpper k2).toNat = 76 := by
          interval_cases j
          · rw [show at? ("sql".data) 0 = some 's' from rfl] at hk2
            cases hk2
            left
            decide
          · rw [show at? ("sql".data) 1 = some 'q' from rfl] at hk2
            cases hk2
            right
            left
            decide
          · rw [show at? ("sql".data) 2 = some 'l' from rfl] at hk2
            cases hk2
            right
            right
            decide
        rcases hs.2.2 k hk with ⟨hS, hQ, hL⟩
        omega
      exact kwKeep_lstrip hs h4
    · rw [if_neg h3]
      exact kwKeep_lstrip hs h2
  · rw [if_neg h1]
    exact h

lemma kwKeep_fenceTail {kw s : List Char} (hs : kwShape kw)
    (h : hasKwP false kw s = true) : hasKwP false kw (stripFenceTail s) = true := by
  rw [stripFenceTail]
  by_cases h1 : listSfx ("```".data) s = true
  · rw [if_pos h1]
    have hdec := listSfx_decomp h1
    rw [show ("```".data).length = 3 from rfl] at hdec
    rw [hdec] at h
    have h2 : hasKwP false kw (s.take (s.length - 3)) = true := by
      refine hasKw_suffix_drop hs.1 hs.2.1 ?_ h
      intro c hc
      have h9 : ("```".data) = ['`', '`', '`'] := rfl
      rw [h9] at hc
      rcases List.mem_cons.mp hc with rfl | hc1
      · decide
      rcases List.mem_cons.mp hc1 with rfl | hc2
      · decide
      rcases List.mem_cons.mp hc2 with rfl | hc3
      · decide
      · cases hc3
    exact kwKeep_rdropWS hs h2
  · rw [if_neg h1]
    by_cases h4 : listSfx ("```\n".data) s = true
    · rw [if_pos h4]
      have hdec := listSfx_decomp h4
      rw [show ("```\n".data).length = 4 from rfl] at hdec
      rw [hdec] at h
      have h2 : hasKwP false kw (s.take (s.length - 4)) = true := by
        refine hasKw_suffix_drop hs.1 hs.2.1 ?_ h
        intro c hc
        have h9 : ("```\n".data) = ['`', '`', '`', '\n'] := rfl
        rw [h9] at hc
        rcases List.mem_cons.mp hc with rfl | hc1
        · decide
        rcases List.mem_cons.mp hc1 with rfl | hc2
        · decide
        rcases List.mem_cons.mp hc2 with rfl | hc3
        · decide
        rcases List.mem_cons.mp hc3 with rfl | hc4
        · decide
        · cases hc4
      refine hasKw_append_keep hs.1 ?_ (kwKeep_rdropWS hs h2)
      right
      exact ⟨'\n', rfl, by decide⟩
    · rw [if_neg h4]
      exact h

/-- A whole-word blocked-keyword occurrence in the raw input survives the
whole canonicalization pipeline of `validate_sql`. -/
lemma kwKeep_canon {kw x : List Char} (hs : kwShape kw)
    (h : hasKwP false kw x = true) : hasKwP false kw (canonText x) = true := by
  rw [canonText, stage1]
  exact kwKeep_pyStrip hs (kwKeep_fenceTail hs (kwKeep_fenceHead hs
    (kwKeep_rstripSemi hs (kwKeep_pyStrip hs h))))

/-! # Helper lemmas: the LIMIT pattern and its rewriting -/

lemma limitMatch_elim {prev : Bool} {s : List Char} {v n : Nat}
    (h : limitMatchAt prev s = some (v, n)) :
    prev = false ∧ ciPfx ("LIMIT".data) s = true ∧ 1 ≤ wsnOf s ∧ 1 ≤ dnOf s ∧
      bdAfter (digRest s) (dnOf s) = true ∧
      v = digitsVal ((digRest s).take (dnOf s)) ∧ n = 5 + wsnOf s + dnOf s := by
  rw [limitMatchAt] at h
  by_cases h0 : prev = true
  · rw [if_pos h0] at h
    cases h
  rw [if_neg h0] at h
  by_cases h1 : ciPfx ("LIMIT".data) s = false
  · rw [if_pos h1] at h
    cases h
  rw [if_neg h1] at h
  by_cases h2 : wsnOf s = 0
  · rw [if_pos h2] at h
    cases h
  rw [if_neg h2] at h
  by_cases h3 : dnOf s = 0
  · rw [if_pos h3] at h
    cases h
  rw [if_neg h3] at h
  by_cases h4 : bdAfter (digRest s) (dnOf s) = false
  · rw [if_pos h4] at h
    cases h
  rw [if_neg h4] at h
  rw [Option.some.injEq, Prod.mk.injEq] at h
  exact ⟨by simpa using h0, by simpa using h1, by omega, by omega,
    by simpa using h4, h.1.symm, h.2.symm⟩

lemma limitMatch_intro {s : List Char}
    (h1 : ciPfx ("LIMIT".data) s = true) (h2 : 1 ≤ wsnOf s) (h3 : 1 ≤ dnOf s)
    (h4 : bdAfter (digRest s) (dnOf s) = true) :
    limitMatchAt false s =
      some (digitsVal ((digRest s).take (dnOf s)), 5 + wsnOf s + dnOf s) := by
  rw [limitMatchAt, if_neg (by simp), if_neg (by rw [h1]; simp),
    if_neg (by omega), if_neg (by omega), if_neg (by rw [h4]; simp)]

lemma cntWhile_le (p : Char → Bool) (l : List Char) : cntWhile p l ≤ l.length := by
  have h : l.takeWhile p ++ l.dropWhile p = l := List.takeWhile_append_dropWhile p l
  have h2 := congrArg List.length h
  rw [List.length_append] at h2
  rw [cntWhile]
  omega

lemma cntWhile_append (p : Char → Bool) (a b : List Char) :
    cntWhile p (a ++ b) =
      if cntWhile p a < a.length then cntWhile p a else a.length + cntWhile p b := by
  induction a with
  | nil => simp [cntWhile]
  | cons c t ih =>
    by_cases hp : p c = true
    · have h1 : cntWhile p (c :: (t ++ b)) = cntWhile p (t ++ b) + 1 := by
        simp [cntWhile, List.takeWhile_cons, hp]
      have h2 : cntWhile p (c :: t) = cntWhile p t + 1 := by
        simp [cntWhile, List.takeWhile_cons, hp]
      rw [List.cons_append, h1, h2, ih]
      by_cases h3 : cntWhile p t < t.length
      · rw [if_pos h3, if_pos (by rw [List.length_cons]; omega)]
      · rw [if_neg h3, if_neg (by rw [List.length_cons]; omega), List.length_cons]
        omega
    · have hp2 : p c = false := by simpa using hp
      have h1 : cntWhile p (c :: (t ++ b)) = 0 := by
        simp [cntWhile, List.takeWhile_cons, hp2]
      have h2 : cntWhile p (c :: t) = 0 := by
        simp [cntWhile, List.takeWhile_cons, hp2]
      rw [List.cons_append, h1, h2, if_pos (by rw [List.length_cons]; omega)]

lemma limit_chars_AZ : ∀ k ∈ ("LIMIT".data), 65 ≤ k.toNat ∧ k.toNat ≤ 90 := by
  decide

/-- A failed LIMIT match at a position is still failed after appending the
default clause `appLim`: the newline cannot extend a match usefully. -/
lemma limitMatch_append_none {prev : Bool} {u : List Char}
    (h : limitMatchAt prev u = none) : limitMatchAt prev (u ++ appLim) = none := by
  rcases hs : limitMatchAt prev (u ++ appLim) with _ | ⟨v, n⟩
  · rfl
  exfalso
  rcases limitMatch_elim hs with ⟨hprev, hL, hws, hdn, hbd, _, _⟩
  subst hprev
  by_cases hu5 : 5 ≤ u.length
  · have hLu : ciPfx ("LIMIT".data) u = true := by
      rw [ciPfx_iff]
      intro j hj
      rcases ciPfx_iff.mp hL j hj with ⟨c, k, h1, h2, h3⟩
      rw [at?_append_left appLim
        (by rw [show ("LIMIT".data).length = 5 from rfl] at hj; omega)] at h1
      exact ⟨c, k, h1, h2, h3⟩
    have hdrop : (u ++ appLim).drop 5 = u.drop 5 ++ appLim :=
      List.drop_append_of_le_length hu5
    have happws : cntWhile isSpaceChar appLim = 1 := by decide
    have hwsn : wsnOf (u ++ appLim) =
        if cntWhile isSpaceChar (u.drop 5) < (u.drop 5).length
        then wsnOf u else (u.drop 5).length + 1 := by
      rw [wsnOf, hdrop, cntWhile_append, happws]
      rw [wsnOf]
    by_cases hcase : cntWhile isSpaceChar (u.drop 5) < (u.drop 5).length
    · -- the whitespace run ends inside u
      rw [if_pos hcase] at hwsn
      have hdig : digRest (u ++ appLim) = digRest u ++ appLim := by
        rw [digRest, hdrop, hwsn, digRest, List.drop_append_of_le_length
          (by rw [wsnOf]; omega)]
      have happd : cntWhile Char.isDigit appLim = 0 := by decide
      have hdnOf : dnOf (u ++ appLim) =
          if dnOf u < (digRest u).length then dnOf u else (digRest u).length := by
        rw [dnOf, hdig, cntWhile_append, happd, dnOf, digRest, wsnOf]
        by_cases h9 : cntWhile Char.isDigit (List.drop
            (cntWhile isSpaceChar (List.drop 5 u)) (List.drop 5 u)) <
            (List.drop (cntWhile isSpaceChar (List.drop 5 u)) (List.drop 5 u)).length
        · rw [if_pos h9, if_pos (by rw [digRest, wsnOf] at *; omega)]
        · rw [if_neg h9, if_neg (by rw [digRest, wsnOf] at *; omega)]
          omega
      have hu_match : limitMatchAt false u ≠ none := by
        by_cases h9 : dnOf u < (digRest u).length
        · rw [if_pos h9] at hdnOf
          have hbdu : bdAfter (digRest u) (dnOf u) = true := by
            rw [bdAfter_true_iff]
            rw [hdnOf, hdig] at hbd
            rw [bdAfter_true_iff] at hbd
            rcases hbd with hbn | ⟨c, h1, h2⟩
            · rw [at?_eq_none_iff, List.length_append] at hbn
              omega
            · rw [at?_append_left appLim h9] at h1
              exact Or.inr ⟨c, h1, h2⟩
          rw [limitMatch_intro hLu (by omega) (by rw [hdnOf] at hdn; omega) hbdu]
          intro hc
          cases hc
        · rw [if_neg h9] at hdnOf
          have hfill : dnOf u = (digRest u).length := by
            have := cntWhile_le Char.isDigit (digRest u)
            rw [dnOf] at *
            omega
          have hbdu : bdAfter (digRest u) (dnOf u) = true := by
            rw [bdAfter_true_iff]
            left
            rw [at?_eq_none_iff]
            omega
          rw [limitMatch_intro hLu (by omega) (by rw [hdnOf] at hdn; omega) hbdu]
          intro hc
          cases hc
      exact hu_match h
    · -- the whitespace run covers all of u after LIMIT and continues over
      -- the newline; the next character is the appended L, not a digit
      rw [if_neg hcase] at hwsn
      have hfill : cntWhile isSpaceChar (u.drop 5) = (u.drop 5).length := by
        have := cntWhile_le isSpaceChar (u.drop 5)
        omega
      have hdig : digRest (u ++ appLim) = appLim.drop 1 := by
        rw [digRest, hdrop, hwsn]
        rw [show (u.drop 5).length + 1 = (u.drop 5).length + 1 from rfl]
        rw [List.drop_append]
      have : dnOf (u ++ appLim) = 0 := by
        rw [dnOf, hdig]
        decide
      omega
  · -- fewer than five characters before the newline: LIMIT cannot match
    rcases ciPfx_iff.mp hL u.length
      (by rw [show ("LIMIT".data).length = 5 from rfl]; omega) with
      ⟨c, k, h1, h2, h3⟩
    rw [at?_append_right appLim (by omega), Nat.sub_self] at h1
    rw [show at? appLim 0 = some '\n' from rfl] at h1
    cases h1
    rcases limit_chars_AZ k (at?_mem h2) with ⟨h65, h90⟩
    rw [nonalpha_ciEq_false (by decide) h65 h90] at h3
    cases h3

lemma findLimit_cons (prev : Bool) (c : Char) (rest : List Char) :
    findLimitVal prev (c :: rest) =
      match limitMatchAt prev (c :: rest) with
      | some (v, _) => some v
      | none => findLimitVal (isWordChar c) rest := rfl

lemma findLimit_none_parts {prev : Bool} {c : Char} {rest : List Char}
    (h : findLimitVal prev (c :: rest) = none) :
    limitMatchAt prev (c :: rest) = none ∧
      findLimitVal (isWordChar c) rest = none := by
  rcases hm : limitMatchAt prev (c :: rest) with _ | ⟨v, n⟩
  · refine ⟨rfl, ?_⟩
    rw [findLimit_cons, hm] at h
    exact h
  · rw [findLimit_cons, hm] at h
    exact Option.noConfusion h

/-- Appending the default clause to a string with no LIMIT match makes the
appended clause the first (and only) match: value 100. -/
lemma findLimit_append_default {u : List Char} (prev : Bool)
    (h : findLimitVal prev u = none) :
    findLimitVal prev (u ++ appLim) = some 100 := by
  induction u generalizing prev with
  | nil =>
    rw [List.nil_append]
    cases prev <;> decide
  | cons c rest ih =>
    rcases findLimit_none_parts h with ⟨hm, hrest⟩
    rw [List.cons_append, findLimit_cons]
    have hm2 : limitMatchAt prev (c :: (rest ++ appLim)) = none := by
      have h2 := limitMatch_append_none hm
      rw [List.cons_append] at h2
      exact h2
    rw [hm2]
    exact ih (isWordChar c) hrest

lemma go_nil (fuel : Nat) (prev : Bool) : replaceLimitsGo fuel prev [] = [] := by
  cases fuel <;> rfl

lemma limitMatch_true (s : List Char) : limitMatchAt true s = none := by
  rw [limitMatchAt, if_pos rfl]

lemma go_cons_match {fuel : Nat} {prev : Bool} {c : Char} {rest : List Char}
    {v n : Nat} (hm : limitMatchAt prev (c :: rest) = some (v, n)) :
    replaceLimitsGo (fuel + 1) prev (c :: rest)
      = limitRepl ++ replaceLimitsGo fuel true ((c :: rest).drop n) := by
  simp only [replaceLimitsGo, hm]

lemma go_cons_none {fuel : Nat} {prev : Bool} {c : Char} {rest : List Char}
    (hm : limitMatchAt prev (c :: rest) = none) :
    replaceLimitsGo (fuel + 1) prev (c :: rest)
      = c :: replaceLimitsGo fuel (isWordChar c) rest := by
  simp only [replaceLimitsGo, hm]

/-- A match is at least seven characters long and fits in the string. -/
lemma limitMatch_len {prev : Bool} {s : List Char} {v n : Nat}
    (h : limitMatchAt prev s = some (v, n)) : 7 ≤ n ∧ n ≤ s.length := by
  rcases limitMatch_elim h with ⟨_, hL, hws, hdn, _, _, hn⟩
  constructor
  · omega
  · have h5 : 5 ≤ s.length := by
      rcases ciPfx_iff.mp hL 4 (by rw [show ("LIMIT".data).length = 5 from rfl]; omega)
        with ⟨c, k, h1, _, _⟩
      have := at?_lt_of_some h1
      omega
    have hw := cntWhile_le isSpaceChar (s.drop 5)
    have hd := cntWhile_le Char.isDigit (digRest s)
    rw [List.length_drop] at hw
    rw [digRest, List.length_drop, List.length_drop] at hd
    rw [wsnOf] at *
    rw [dnOf, digRest, wsnOf] at *
    omega

/-- The character just after a match, seen from the whole string: it is
either past the end or a non-word character. -/
lemma limitMatch_after {prev : Bool} {s : List Char} {v n : Nat}
    (h : limitMatchAt prev s = some (v, n)) :
    at? s n = none ∨ ∃ c, at? s n = some c ∧ isWordChar c = false := by
  rcases limitMatch_elim h with ⟨_, _, _, _, hbd, _, hn⟩
  rw [bdAfter_true_iff] at hbd
  have heq : at? (digRest s) (dnOf s) = at? s n := by
    rw [digRest, at?_drop, at?_drop, wsnOf, hn, wsnOf, dnOf, digRest, wsnOf]
    congr 1
    omega
  rw [heq] at hbd
  exact hbd

/-- If there is no LIMIT match anywhere, the rewriting scan copies the
string unchanged. -/
lemma go_id_of_none {fuel : Nat} {prev : Bool} {s : List Char}
    (hfuel : s.length ≤ fuel) (h : findLimitVal prev s = none) :
    replaceLimitsGo fuel prev s = s := by
  induction fuel generalizing prev s with
  | zero => rfl
  | succ f ih =>
    cases s with
    | nil => exact go_nil _ _
    | cons c rest =>
      rcases findLimit_none_parts h with ⟨hm, hrest⟩
      rw [go_cons_none hm, ih (by rw [List.length_cons] at hfuel; omega) hrest]

/-- The head of the scan under entry flag `true` is the head of the input:
no match can start there. -/
lemma at?_go_true_zero (fuel : Nat) (u : List Char) :
    at? (replaceLimitsGo fuel true u) 0 = at? u 0 := by
  cases fuel with
  | zero => rfl
  | succ f =>
    cases u with
    | nil => rfl
    | cons c rest =>
      rw [go_cons_none (limitMatch_true _)]
      rfl

/-- Positional copying under flag `true`: as long as the input characters
are word characters, the scan copies them verbatim (a match would need a
word boundary that word characters never provide). -/
lemma go_copy_word_in {fuel : Nat} {u : List Char} {m : Nat}
    (hw : ∀ j < m, ∃ c, at? u j = some c ∧ isWordChar c = true) :
    ∀ j ≤ m, at? (replaceLimitsGo fuel true u) j = at? u j := by
  induction fuel generalizing u m with
  | zero =>
    intro j hj
    rfl
  | succ f ih =>
    cases u with
    | nil =>
      intro j hj
      rw [go_nil]
    | cons c rest =>
      rw [go_cons_none (limitMatch_true _)]
      intro j hj
      cases j with
      | zero => rfl
      | succ j2 =>
        rw [at?_cons_succ, at?_cons_succ]
        cases m with
        | zero => omega
        | succ m2 =>
          rcases hw 0 (by omega) with ⟨c0, hc0, hcw⟩
          rw [at?_head] at hc0
          cases hc0
          rw [hcw]
          have harg : ∀ j3 < m2, ∃ c3, at? rest j3 = some c3 ∧
              isWordChar c3 = true := by
            intro j3 hj3
            rcases hw (j3 + 1) (by omega) with ⟨c3, hc3, hc3w⟩
            rw [at?_cons_succ] at hc3
            exact ⟨c3, hc3, hc3w⟩
          exact ih harg j2 (by omega)

/-- Positional copying by output shape: as long as the produced characters
are not the literal `L` that every replacement block starts with, they are
copies of the input. -/
lemma go_copy_notL {fuel : Nat} {prev : Bool} {u : List Char} {m : Nat}
    (hfuel : u.length ≤ fuel)
    (hw : ∀ j ≤ m, at? (replaceLimitsGo fuel prev u) j ≠ some 'L') :
    ∀ j ≤ m, at? (replaceLimitsGo fuel prev u) j = at? u j := by
  induction fuel generalizing u m prev with
  | zero =>
    intro j hj
    rfl
  | succ f ih =>
    cases u with
    | nil =>
      intro j hj
      rw [go_nil]
    | cons c rest =>
      rcases hm : limitMatchAt prev (c :: rest) with _ | ⟨v, n⟩
      · rw [go_cons_none hm]
        rw [go_cons_none hm] at hw
        intro j hj
        cases j with
        | zero => rfl
        | succ j2 =>
          rw [at?_cons_succ, at?_cons_succ]
          cases m with
          | zero => omega
          | succ m2 =>
            have harg : ∀ j3 ≤ m2,
                at? (replaceLimitsGo f (isWordChar c) rest) j3 ≠ some 'L' := by
              intro j3 hj3
              have h5 := hw (j3 + 1) (by omega)
              rw [at?_cons_succ] at h5
              exact h5
            exact ih (by rw [List.length_cons] at hfuel; omega) harg j2 (by omega)
      · exfalso
        apply hw 0 (by omega)
        rw [go_cons_match hm]
        rw [at?_append_left]
        · rfl
        · rw [show limitRepl.length = 10 from rfl]
          omega

lemma cntWhile_zero_of_head {p : Char → Bool} {l : List Char}
    (h : at? l 0 = none ∨ ∃ c, at? l 0 = some c ∧ p c = false) :
    cntWhile p l = 0 :=
  cntWhile_eq_of p l 0 (by intro j hj; omega) h

/-- Two strings agreeing on all positions up to `n` produce the same LIMIT
match of length `n`. -/
lemma limitMatch_congr {s1 s2 : List Char} {v n : Nat}
    (hagree : ∀ j ≤ n, at? s1 j = at? s2 j)
    (h : limitMatchAt false s1 = some (v, n)) :
    limitMatchAt false s2 = some (v, n) := by
  rcases limitMatch_elim h with ⟨_, hL, hws, hdn, hbd, hv, hn⟩
  have hlen := limitMatch_len h
  have hws_spec := cntWhile_spec isSpaceChar (s1.drop 5)
  have hdn_spec := cntWhile_spec Char.isDigit (digRest s1)
  -- the `LIMIT` head
  have hL2 : ciPfx ("LIMIT".data) s2 = true := by
    rw [ciPfx_iff]
    intro j hj
    rw [show ("LIMIT".data).length = 5 from rfl] at hj
    rcases ciPfx_iff.mp hL j (by rw [show ("LIMIT".data).length = 5 from rfl]; omega)
      with ⟨c, k, h1, h2, h3⟩
    rw [hagree j (by omega)] at h1
    exact ⟨c, k, h1, h2, h3⟩
  have ews1 : wsnOf s1 = cntWhile isSpaceChar (s1.drop 5) := rfl
  have edn1 : dnOf s1 = cntWhile Char.isDigit (digRest s1) := rfl
  -- positional agreement after the drop of the LIMIT head
  have hdrop5 : ∀ m, 5 + m ≤ n → at? (s2.drop 5) m = at? (s1.drop 5) m := by
    intro m hmn
    rw [at?_drop, at?_drop]
    exact (hagree (5 + m) hmn).symm
  -- the whitespace run
  have hws2 : wsnOf s2 = wsnOf s1 := by
    show cntWhile isSpaceChar (s2.drop 5) = wsnOf s1
    apply cntWhile_eq_of
    · intro j hj
      have hj2 := hj
      rw [ews1] at hj2
      rcases hws_spec.1 j hj2 with ⟨c, h1, h2⟩
      rw [hdrop5 j (by omega)]
      exact ⟨c, h1, h2⟩
    · have hstop := hws_spec.2
      rw [← ews1] at hstop
      rw [hdrop5 (wsnOf s1) (by omega), ews1]
      rw [← ews1]
      exact hstop
  -- positional agreement of the digit tails
  have hdigat : ∀ m, m ≤ dnOf s1 → at? (digRest s2) m = at? (digRest s1) m := by
    intro m hm
    rw [digRest, digRest, at?_drop, at?_drop, at?_drop, at?_drop, hws2]
    exact (hagree (5 + (wsnOf s1 + m)) (by omega)).symm
  -- the digit run
  have hdn2 : dnOf s2 = dnOf s1 := by
    show cntWhile Char.isDigit (digRest s2) = dnOf s1
    apply cntWhile_eq_of
    · intro j hj
      have hj2 := hj
      rw [edn1] at hj2
      rcases hdn_spec.1 j hj2 with ⟨c, h1, h2⟩
      rw [hdigat j (by omega)]
      exact ⟨c, h1, h2⟩
    · have hstop := hdn_spec.2
      rw [← edn1] at hstop
      rw [hdigat (dnOf s1) (by omega)]
      exact hstop
  -- the boundary after the digits
  have hbd2 : bdAfter (digRest s2) (dnOf s2) = true := by
    rw [bdAfter_true_iff] at hbd ⊢
    rw [hdn2, hdigat (dnOf s1) (by omega)]
    exact hbd
  -- the captured digits agree
  have htake : (digRest s2).take (dnOf s2) = (digRest s1).take (dnOf s1) := by
    rw [hdn2]
    apply List.ext_get?
    intro i
    by_cases hi : i < dnOf s1
    · rw [← at?_eq_get?, ← at?_eq_get?, at?_take (dnOf s1) hi, at?_take (dnOf s1) hi]
      rw [hdigat i (by omega)]
    · have hnone : ∀ l : List Char, (l.take (dnOf s1)).get? i = none := by
        intro l
        rw [← at?_eq_get?, at?_eq_none_iff, List.length_take]
        omega
      rw [hnone, hnone]
  have hfin := limitMatch_intro hL2 (by omega) (by omega) hbd2
  rw [hdn2, hws2] at hfin
  rw [hdn2] at htake
  rw [htake, ← hv, ← hn] at hfin
  exact hfin

/-- The characters at positions 1..n of a LIMIT match are never the literal
uppercase `L`: they case-match IMIT, or are whitespace, digits, or a
non-word boundary character. -/
lemma limitMatch_pos_notL {prev : Bool} {x : List Char} {v n : Nat}
    (h : limitMatchAt prev x = some (v, n)) :
    ∀ j, 1 ≤ j → j ≤ n → at? x j ≠ some 'L' := by
  intro j hj1 hjn heq
  rcases limitMatch_elim h with ⟨_, hL, hws, hdn, hbd, _, hn⟩
  have ews1 : wsnOf x = cntWhile isSpaceChar (x.drop 5) := rfl
  have edn1 : dnOf x = cntWhile Char.isDigit (digRest x) := rfl
  by_cases hc1 : j < 5
  · rcases ciPfx_iff.mp hL j
      (by rw [show ("LIMIT".data).length = 5 from rfl]; omega) with ⟨c, k, h1, h2, h3⟩
    rw [heq] at h1
    cases h1
    interval_cases j
    · rw [show at? ("LIMIT".data) 1 = some 'I' from rfl] at h2
      cases h2
      exact absurd h3 (by decide)
    · rw [show at? ("LIMIT".data) 2 = some 'M' from rfl] at h2
      cases h2
      exact absurd h3 (by decide)
    · rw [show at? ("LIMIT".data) 3 = some 'I' from rfl] at h2
      cases h2
      exact absurd h3 (by decide)
    · rw [show at? ("LIMIT".data) 4 = some 'T' from rfl] at h2
      cases h2
      exact absurd h3 (by decide)
  · by_cases hc2 : j < 5 + wsnOf x
    · rcases (cntWhile_spec isSpaceChar (x.drop 5)).1 (j - 5)
        (by rw [← ews1]; omega) with ⟨c, h1, h2⟩
      rw [at?_drop, show 5 + (j - 5) = j from by omega, heq] at h1
      cases h1
      exact absurd h2 (by decide)
    · by_cases hc3 : j < n
      · rcases (cntWhile_spec Char.isDigit (digRest x)).1 (j - 5 - wsnOf x)
          (by rw [← edn1]; omega) with ⟨c, h1, h2⟩
        rw [digRest, at?_drop, at?_drop,
          show 5 + (wsnOf x + (j - 5 - wsnOf x)) = j from by omega, heq] at h1
        cases h1
        exact absurd h2 (by decide)
      · have hjn2 : j = n := by omega
        subst hjn2
        rcases limitMatch_after h with h1 | ⟨c, h1, h2⟩
        · rw [heq] at h1
          cases h1
        · rw [heq] at h1
          cases h1
          exact absurd h2 (by decide)

/-- After the rewrite scan, the first LIMIT match carries the capped value
1000 (provided the input had a match at all). -/
lemma findLimit_go_1000 {fuel : Nat} {prev : Bool} {s : List Char} {v : Nat}
    (hfuel : s.length ≤ fuel) (h : findLimitVal prev s = some v) :
    findLimitVal prev (replaceLimitsGo fuel prev s) = some 1000 := by
  induction fuel generalizing prev s v with
  | zero =>
    cases s with
    | nil => cases h
    | cons c rest =>
      rw [List.length_cons] at hfuel
      omega
  | succ f ih =>
    cases s with
    | nil => cases h
    | cons c rest =>
      rcases hm : limitMatchAt prev (c :: rest) with _ | ⟨v2, n⟩
      · -- no match at the head: the head character is copied and the scan
        -- continues; the head of the output cannot start a fresh match
        rw [findLimit_cons, hm] at h
        rw [go_cons_none hm]
        have htail : findLimitVal (isWordChar c)
            (replaceLimitsGo f (isWordChar c) rest) = some 1000 :=
          ih (by rw [List.length_cons] at hfuel; omega) h
        rw [findLimit_cons]
        rcases hm2 : limitMatchAt prev (c :: replaceLimitsGo f (isWordChar c) rest)
          with _ | ⟨v3, n3⟩
        · exact htail
        · exfalso
          have hlen3 := limitMatch_len hm2
          have hnotL : ∀ j ≤ n3 - 1,
              at? (replaceLimitsGo f (isWordChar c) rest) j ≠ some 'L' := by
            intro j hj heq
            exact limitMatch_pos_notL hm2 (j + 1) (by omega) (by omega)
              (by rw [at?_cons_succ]; exact heq)
          have hcopy := go_copy_notL (by rw [List.length_cons] at hfuel; omega) hnotL
          have hagree : ∀ j ≤ n3,
              at? (c :: replaceLimitsGo f (isWordChar c) rest) j
                = at? (c :: rest) j := by
            intro j hj
            cases j with
            | zero => rfl
            | succ j2 =>
              rw [at?_cons_succ, at?_cons_succ]
              exact hcopy j2 (by omega)
          have hprev0 : prev = false := (limitMatch_elim hm2).1
          subst hprev0
          have := limitMatch_congr hagree hm2
          rw [this] at hm
          cases hm
      · -- a match at the head: the replacement text itself is the first
        -- match of the output, with value 1000
        have hprev0 : prev = false := (limitMatch_elim hm).1
        subst hprev0
        rw [go_cons_match hm]
        set R := replaceLimitsGo f true ((c :: rest).drop n) with hR
        have hRhead : at? R 0 = none ∨
            ∃ c0, at? R 0 = some c0 ∧ isWordChar c0 = false := by
          rw [hR, at?_go_true_zero, at?_drop, Nat.add_zero]
          exact limitMatch_after hm
        have hshape : limitRepl ++ R
            = 'L' :: ('I' :: ('M' :: ('I' :: ('T' :: ((" 1000".data) ++ R))))) := rfl
        have hciL : ciPfx ("LIMIT".data) (limitRepl ++ R) = true := by
          rw [ciPfx_iff]
          intro j hj
          rw [show ("LIMIT".data).length = 5 from rfl] at hj
          rw [at?_append_left R (by rw [show limitRepl.length = 10 from rfl]; omega)]
          interval_cases j
          · exact ⟨'L', 'L', rfl, rfl, by decide⟩
          · exact ⟨'I', 'I', rfl, rfl, by decide⟩
          · exact ⟨'M', 'M', rfl, rfl, by decide⟩
          · exact ⟨'I', 'I', rfl, rfl, by decide⟩
          · exact ⟨'T', 'T', rfl, rfl, by decide⟩
        have hdropL : (limitRepl ++ R).drop 5 = (" 1000".data) ++ R := by
          rw [show limitRepl = ("LIMIT".data) ++ (" 1000".data) from rfl,
            List.append_assoc]
          rw [List.drop_append_of_le_length (by decide)]
          rfl
        have hwsL : wsnOf (limitRepl ++ R) = 1 := by
          rw [wsnOf, hdropL, cntWhile_append,
            show cntWhile isSpaceChar (" 1000".data) = 1 from by decide,
            show (" 1000".data).length = 5 from rfl, if_pos (by omega)]
        have hdigL : digRest (limitRepl ++ R) = ("1000".data) ++ R := by
          rw [digRest, hwsL, hdropL,
            show (" 1000".data) = ' ' :: ("1000".data) from rfl, List.cons_append,
            List.drop_succ_cons, List.drop_zero]
        have hRd : at? R 0 = none ∨
            ∃ c0, at? R 0 = some c0 ∧ Char.isDigit c0 = false := by
          rcases hRhead with h1 | ⟨c0, h1, h2⟩
          · exact Or.inl h1
          · refine Or.inr ⟨c0, h1, ?_⟩
            by_contra hcon
            rw [Bool.not_eq_false] at hcon
            rw [digit_word hcon] at h2
            cases h2
        have hdnL : dnOf (limitRepl ++ R) = 4 := by
          rw [dnOf, hdigL, cntWhile_append,
            show cntWhile Char.isDigit ("1000".data) = 4 from by decide,
            show ("1000".data).length = 4 from rfl, if_neg (by omega),
            cntWhile_zero_of_head hRd]
        have h40 : at? (("1000".data) ++ R) 4 = at? R 0 := by
          rw [at?_append_right R (by decide)]
          rw [show ("1000".data).length = 4 from rfl]
        have hbdL : bdAfter (digRest (limitRepl ++ R)) (dnOf (limitRepl ++ R))
            = true := by
          rw [hdigL, hdnL, bdAfter_true_iff, h40]
          exact hRhead
        have hvalL : digitsVal ((digRest (limitRepl ++ R)).take
            (dnOf (limitRepl ++ R))) = 1000 := by
          rw [hdigL, hdnL]
          rw [show (4 : Nat) = ("1000".data).length from rfl, List.take_left]
          decide
        have hmL : limitMatchAt false (limitRepl ++ R) = some (1000, 5 + 1 + 4) := by
          have hin := limitMatch_intro hciL (by rw [hwsL])
            (by rw [hdnL]; omega) hbdL
          rw [hwsL, hdnL] at hin
          rw [hdnL] at hvalL
          rw [hvalL] at hin
          exact hin
        calc findLimitVal false (limitRepl ++ R)
            = (match limitMatchAt false (limitRepl ++ R) with
              | some (v2, _) => some v2
              | none => findLimitVal true (("IMIT 1000".data) ++ R)) := rfl
          _ = some 1000 := by rw [hmL]

/-- Destructuring an accepted `validate_sql` run: no sentinel, the SELECT
check passed, the keyword scan found nothing, and the output is the
limit-enforced canonical text. -/
lemma validate_ok_parts {x y : List Char} (h : validate_sql x = Except.ok y) :
    listPfx ("ERROR:".data) (pyUpper (stage1 x)) = false ∧
      startsSelWith (canonText x) = true ∧
      BLOCKED_KEYWORDS.find? (fun kw => hasKw kw (canonText x)) = none ∧
      y = enforce_limit (canonText x) := by
  by_cases herr : listPfx ("ERROR:".data) (pyUpper (stage1 x)) = true
  · exfalso
    simp [validate_sql, herr] at h
  · have herr2 : listPfx ("ERROR:".data) (pyUpper (stage1 x)) = false := by
      simpa using herr
    by_cases hsel : startsSelWith (canonText x) = true
    · rcases hf : BLOCKED_KEYWORDS.find? (fun kw => hasKw kw (canonText x))
        with _ | kw2
      · refine ⟨herr2, hsel, rfl, ?_⟩
        simp only [validate_sql, herr2, hsel, hf, Bool.false_eq_true, if_false,
          Bool.not_true, Except.ok.injEq] at h
        exact h.symm
      · exfalso
        simp [validate_sql, herr2, hsel, hf] at h
    · exfalso
      have hsel2 : startsSelWith (canonText x) = false := by simpa using hsel
      simp [validate_sql, herr2, hsel2] at h

/-- Every accepted output carries a LIMIT clause whose first value is at or
under the ceiling. -/
lemma validate_limit_inv {x y : List Char} (h : validate_sql x = Except.ok y) :
    ∃ v, findLimitVal false y = some v ∧ v ≤ MAX_LIMIT := by
  rcases validate_ok_parts h with ⟨_, _, _, hy⟩
  rcases hf : findLimitVal false (canonText x) with _ | v
  · have he : enforce_limit (canonText x) = canonText x ++ appLim := by
      simp only [enforce_limit, hf]
    rw [hy, he]
    refine ⟨100, findLimit_append_default false hf, by rw [MAX_LIMIT]; omega⟩
  · by_cases hv : v > MAX_LIMIT
    · have he : enforce_limit (canonText x) = replaceLimits (canonText x) := by
        simp only [enforce_limit, hf, if_pos hv]

      rw [hy, he, replaceLimits]
      exact ⟨1000, findLimit_go_1000 (Nat.le_refl _) hf, by rw [MAX_LIMIT]⟩
    · have he : enforce_limit (canonText x) = canonText x := by
        simp only [enforce_limit, hf, if_neg hv]
      rw [hy, he]
      exact ⟨v, hf, by omega⟩

/-! # Helper lemmas: fixed points of the sanitization pipeline -/

lemma listPfx_one_iff {x : Char} {r : List Char} :
    listPfx [x] r = true ↔ at? r 0 = some x := by
  cases r with
  | nil =>
    constructor
    · intro h
      exact absurd h Bool.false_ne_true
    · intro h
      exact Option.noConfusion h
  | cons a t =>
    constructor
    · intro h
      have h2 : (x == a && listPfx ([] : List Char) t) = true := h
      rw [Bool.and_eq_true] at h2
      rcases h2 with ⟨h1, _⟩
      rw [beq_iff_eq] at h1
      rw [at?_head, h1]
    · intro h
      have h1 : a = x := by
        have h2 : some a = some x := h
        injection h2
      show (x == a && listPfx ([] : List Char) t) = true
      rw [h1]
      simp [listPfx]

lemma listSfx_singleton_true {x : Char} {s : List Char}
    (h : at? s.reverse 0 = some x) : listSfx [x] s = true := by
  show listPfx ([x].reverse) s.reverse = true
  exact listPfx_one_iff.mpr h

lemma listSfx_fence_nl_false {y : List Char} {d : Char}
    (hd : at? y.reverse 0 = some d) (hns : isSpaceChar d = false) :
    listSfx ("```\n".data) y = false := by
  by_contra hcon
  rw [Bool.not_eq_false] at hcon
  rw [listSfx, listPfx_iff] at hcon
  rcases hcon 0 (by decide) with ⟨e, he1, he2⟩
  rw [show at? (("```\n".data).reverse) 0 = some '\n' from rfl] at he1
  cases he1
  rw [he2] at hd
  cases hd
  exact absurd hns (by decide)

lemma dropWhile_head_false (p : Char → Bool) (l : List Char) :
    at? (l.dropWhile p) 0 = none ∨
      ∃ c, at? (l.dropWhile p) 0 = some c ∧ p c = false := by
  induction l with
  | nil =>
    left
    rfl
  | cons a t ih =>
    by_cases hp : p a = true
    · rw [List.dropWhile_cons, if_pos hp]
      exact ih
    · rw [List.dropWhile_cons, if_neg hp]
      right
      exact ⟨a, at?_head, Bool.eq_false_iff.mpr hp⟩

lemma dropWhile_id_of_head {p : Char → Bool} {s : List Char}
    (h : at? s 0 = none ∨ ∃ c, at? s 0 = some c ∧ p c = false) :
    s.dropWhile p = s := by
  cases s with
  | nil => rfl
  | cons c t =>
    rcases h with h0 | ⟨c0, h1, h2⟩
    · exact Option.noConfusion h0
    · rw [at?_head] at h1
      cases h1
      rw [List.dropWhile_cons, if_neg (by simp [h2])]

lemma rdrop_id_of_last {p : Char → Bool} {s : List Char}
    (h : at? s.reverse 0 = none ∨ ∃ c, at? s.reverse 0 = some c ∧ p c = false) :
    rdrop p s = s := by
  show (s.reverse.dropWhile p).reverse = s
  rw [dropWhile_id_of_head h, List.reverse_reverse]

lemma at?_rdrop (p : Char → Bool) (s : List Char) {j : Nat} {c : Char}
    (h : at? (rdrop p s) j = some c) : at? s j = some c := by
  rcases rdrop_decomp p s with ⟨q, hdec, _⟩
  conv_lhs => rw [hdec]
  rw [at?_append_left q (at?_lt_of_some h)]
  exact h

/-- The first character of a stripped string is not whitespace. -/
lemma pyStrip_head_nonspace {t : List Char} {c0 : Char}
    (h : at? (pyStrip t) 0 = some c0) : isSpaceChar c0 = false := by
  have h2 : at? (lstripWS t) 0 = some c0 := at?_rdrop isSpaceChar (lstripWS t) h
  rcases dropWhile_head_false isSpaceChar t with hn | ⟨c, h3, h4⟩
  · have h5 : at? (lstripWS t) 0 = none := hn
    rw [h5] at h2
    exact Option.noConfusion h2
  · have h5 : at? (lstripWS t) 0 = some c := h3
    rw [h5] at h2
    injection h2 with h6
    rw [← h6]
    exact h4

/-- The last character of a stripped string is not whitespace. -/
lemma pyStrip_last_nonspace {t : List Char} {c0 : Char}
    (h : at? (pyStrip t).reverse 0 = some c0) : isSpaceChar c0 = false := by
  have he : (pyStrip t).reverse = (lstripWS t).reverse.dropWhile isSpaceChar := by
    show ((((lstripWS t).reverse.dropWhile isSpaceChar).reverse).reverse) = _
    rw [List.reverse_reverse]
  rw [he] at h
  rcases dropWhile_head_false isSpaceChar (lstripWS t).reverse with hn | ⟨c, h3, h4⟩
  · rw [hn] at h
    exact Option.noConfusion h
  · rw [h3] at h
    injection h with h6
    rw [← h6]
    exact h4

lemma lstripWS_id {y : List Char} {c0 : Char} (hc : at? y 0 = some c0)
    (hns : isSpaceChar c0 = false) : lstripWS y = y :=
  dropWhile_id_of_head (Or.inr ⟨c0, hc, hns⟩)

lemma rstripWS_id {y : List Char} {d : Char} (hd : at? y.reverse 0 = some d)
    (hns : isSpaceChar d = false) : rstripWS y = y :=
  rdrop_id_of_last (Or.inr ⟨d, hd, hns⟩)

lemma rstripSemi_id {y : List Char} {d : Char} (hd : at? y.reverse 0 = some d)
    (hne : (d == ';') = false) : rstripSemi y = y :=
  rdrop_id_of_last (Or.inr ⟨d, hd, hne⟩)

lemma lstrip_pyUpper_id {c : List Char} {c0 : Char}
    (h : at? c 0 = some c0) (hc0 : isSpaceChar c0 = false) :
    lstripWS (pyUpper c) = pyUpper c := by
  apply dropWhile_id_of_head
  right
  refine ⟨c0.toUpper, ?_, ?_⟩
  · show at? (c.map Char.toUpper) 0 = some c0.toUpper
    rw [at?_map, h]
    rfl
  · rw [isSpace_toUpper]
    exact hc0

lemma startsSelWith_parts {s : List Char} {c0 : Char}
    (hc : at? s 0 = some c0) (hns : isSpaceChar c0 = false)
    (h : startsSelWith s = true) :
    listPfx ("SELECT".data) (pyUpper s) = true ∨
      listPfx ("WITH".data) (pyUpper s) = true := by
  simp only [startsSelWith] at h
  rw [lstrip_pyUpper_id hc hns] at h
  rw [Bool.or_eq_true] at h
  exact h

lemma startsSelWith_intro {s : List Char} {c0 : Char}
    (hc : at? s 0 = some c0) (hns : isSpaceChar c0 = false)
    (h : listPfx ("SELECT".data) (pyUpper s) = true ∨
      listPfx ("WITH".data) (pyUpper s) = true) :
    startsSelWith s = true := by
  simp only [startsSelWith]
  rw [lstrip_pyUpper_id hc hns]
  rcases h with h | h
  · rw [h, Bool.true_or]
  · rw [h, Bool.or_true]

lemma sel_head_upper {s : List Char} {c0 : Char} (hc : at? s 0 = some c0)
    (h : listPfx ("SELECT".data) (pyUpper s) = true ∨
      listPfx ("WITH".data) (pyUpper s) = true) :
    c0.toUpper = 'S' ∨ c0.toUpper = 'W' := by
  rcases h with h | h
  · left
    rcases listPfx_iff.mp h 0 (by decide) with ⟨d, h1, h2⟩
    rw [show at? ("SELECT".data) 0 = some 'S' from rfl] at h1
    cases h1
    rw [show pyUpper s = s.map Char.toUpper from rfl, at?_map, hc] at h2
    injection h2
  · right
    rcases listPfx_iff.mp h 0 (by decide) with ⟨d, h1, h2⟩
    rw [show at? ("WITH".data) 0 = some 'W' from rfl] at h1
    cases h1
    rw [show pyUpper s = s.map Char.toUpper from rfl, at?_map, hc] at h2
    injection h2

/-- An uppercase keyword prefix of `upper(c)` covers only word characters
of `c`. -/
lemma word_of_upper_pfx {p c : List Char}
    (hAZ : ∀ k ∈ p, 65 ≤ k.toNat ∧ k.toNat ≤ 90)
    (h : listPfx p (pyUpper c) = true) :
    ∀ j < p.length, ∃ e, at? c j = some e ∧ isWordChar e = true := by
  intro j hj
  rcases listPfx_iff.mp h j hj with ⟨d, h1, h2⟩
  rw [show pyUpper c = c.map Char.toUpper from rfl, at?_map] at h2
  rcases Option.map_eq_some'.mp h2 with ⟨e, he1, he2⟩
  rcases hAZ d (at?_mem h1) with ⟨h65, h90⟩
  have hci : ciEqChar e d = true := by
    show (e.toUpper == d.toUpper) = true
    rw [he2, toUpper_eq_self (by omega)]
    simp
  exact ⟨e, he1, alpha_word (ciEq_upper_alpha h65 h90 hci)⟩

lemma listPfx_upper_transfer {p c y : List Char}
    (hcopy : ∀ j < p.length, at? y j = at? c j)
    (h : listPfx p (pyUpper c) = true) : listPfx p (pyUpper y) = true := by
  rw [listPfx_iff] at h ⊢
  intro j hj
  rcases h j hj with ⟨d, h1, h2⟩
  refine ⟨d, h1, ?_⟩
  have h3 : at? (pyUpper y) j = at? (pyUpper c) j := by
    show at? (y.map Char.toUpper) j = at? (c.map Char.toUpper) j
    rw [at?_map, at?_map, hcopy j hj]
  rw [h3]
  exact h2

lemma listPfx_append_keep {p a : List Char} (b : List Char)
    (h : listPfx p a = true) : listPfx p (a ++ b) = true := by
  rw [listPfx_iff] at h ⊢
  intro j hj
  rcases h j hj with ⟨c, h1, h2⟩
  refine ⟨c, h1, ?_⟩
  rw [at?_append_left b (at?_lt_of_some h2)]
  exact h2

lemma pyUpper_append (a b : List Char) :
    pyUpper (a ++ b) = pyUpper a ++ pyUpper b :=
  List.map_append Char.toUpper a b

/-- If the head is no case-insensitive `L`, no LIMIT match starts there. -/
lemma limitMatch_head_not_ciL {c : Char} {rest : List Char}
    (h : ciEqChar c 'L' = false) : limitMatchAt false (c :: rest) = none := by
  have hci : ciPfx ("LIMIT".data) (c :: rest) = false := by
    show (ciEqChar c 'L' && ciPfx ("IMIT".data) rest) = false
    rw [h, Bool.false_and]
  rw [limitMatchAt, if_neg Bool.false_ne_true, if_pos hci]

/-! # Helper lemmas: the rewrite scan preserves ends and keywords -/

lemma go_ne_nil (fuel : Nat) (prev : Bool) (s : List Char) (hs : s ≠ []) :
    replaceLimitsGo fuel prev s ≠ [] := by
  cases fuel with
  | zero => exact hs
  | succ f =>
    cases s with
    | nil => exact hs
    | cons c rest =>
      rcases hm : limitMatchAt prev (c :: rest) with _ | ⟨v, n⟩
      · rw [go_cons_none hm]
        exact List.cons_ne_nil _ _
      · rw [go_cons_match hm]
        intro hcon
        exact absurd (List.append_eq_nil.mp hcon).1 (by decide)

lemma last_drop {s : List Char} {n : Nat} (h : s.drop n ≠ []) :
    at? (s.drop n).reverse 0 = at? s.reverse 0 := by
  have h0 : 0 < (s.drop n).reverse.length := by
    rw [List.length_reverse]
    exact List.length_pos.mpr h
  conv_rhs => rw [← List.take_append_drop n s]
  rw [List.reverse_append, at?_append_left ((s.take n).reverse) h0]

/-- The last character of the rewrite scan is either the last character of
the input or the closing `0` of a replacement block. -/
lemma go_last_mem : ∀ (fuel : Nat) (prev : Bool) (s : List Char),
    at? (replaceLimitsGo fuel prev s).reverse 0 = at? s.reverse 0 ∨
      at? (replaceLimitsGo fuel prev s).reverse 0 = some '0' := by
  intro fuel
  induction fuel with
  | zero =>
    intro prev s
    left
    rfl
  | succ f ih =>
    intro prev s
    cases s with
    | nil =>
      left
      rw [go_nil]
    | cons c rest =>
      rcases hm : limitMatchAt prev (c :: rest) with _ | ⟨v, n⟩
      · rw [go_cons_none hm]
        by_cases hrest : rest = []
        · subst hrest
          left
          rw [go_nil]
        · have hR : replaceLimitsGo f (isWordChar c) rest ≠ [] :=
            go_ne_nil f (isWordChar c) rest hrest
          have hpos1 : 0 < (replaceLimitsGo f (isWordChar c) rest).reverse.length := by
            rw [List.length_reverse]
            exact List.length_pos.mpr hR
          have hpos2 : 0 < rest.reverse.length := by
            rw [List.length_reverse]
            exact List.length_pos.mpr hrest
          have e1 : at? (c :: replaceLimitsGo f (isWordChar c) rest).reverse 0
              = at? (replaceLimitsGo f (isWordChar c) rest).reverse 0 := by
            rw [List.reverse_cons, at?_append_left [c] hpos1]
          have e2 : at? (c :: rest).reverse 0 = at? rest.reverse 0 := by
            rw [List.reverse_cons, at?_append_left [c] hpos2]
          rcases ih (isWordChar c) rest with hL | hR0
          · left
            rw [e1, e2, hL]
          · right
            rw [e1, hR0]
      · rw [go_cons_match hm]
        by_cases hdn : (c :: rest).drop n = []
        · right
          rw [hdn, go_nil, List.append_nil]
          decide
        · have hR2 : replaceLimitsGo f true ((c :: rest).drop n) ≠ [] :=
            go_ne_nil f true _ hdn
          have hpos : 0 < (replaceLimitsGo f true ((c :: rest).drop n)).reverse.length := by
            rw [List.length_reverse]
            exact List.length_pos.mpr hR2
          have e1 : at? (limitRepl ++ replaceLimitsGo f true ((c :: rest).drop n)).reverse 0
              = at? (replaceLimitsGo f true ((c :: rest).drop n)).reverse 0 := by
            rw [List.reverse_append, at?_append_left limitRepl.reverse hpos]
          rcases ih true ((c :: rest).drop n) with hL | hR0
          · left
            rw [e1, hL]
            exact last_drop hdn
          · right
            rw [e1, hR0]

/-- Copying by output shape: as long as the characters the scan produced are
word characters, they are verbatim copies of the input (a replacement block
would need a preceding word boundary). -/
lemma go_copy_word_out {fuel : Nat} {u : List Char} :
    ∀ m, (∀ j < m, ∃ c, at? (replaceLimitsGo fuel true u) j = some c ∧
      isWordChar c = true) →
    ∀ j ≤ m, at? (replaceLimitsGo fuel true u) j = at? u j := by
  intro m
  induction m with
  | zero =>
    intro _ j hj
    have hj0 : j = 0 := by omega
    rw [hj0]
    exact at?_go_true_zero fuel u
  | succ m2 ih =>
    intro hw
    have hcopy : ∀ j ≤ m2, at? (replaceLimitsGo fuel true u) j = at? u j :=
      ih (fun j hj => hw j (by omega))
    have hin : ∀ j < m2 + 1, ∃ c, at? u j = some c ∧ isWordChar c = true := by
      intro j hj
      rcases hw j hj with ⟨c, h1, h2⟩
      refine ⟨c, ?_, h2⟩
      rw [← hcopy j (by omega)]
      exact h1
    exact go_copy_word_in hin

/-- The rewrite scan introduces no new whole-word occurrence of an
all-uppercase keyword that misses both the input and the replacement text. -/
lemma go_kw_keep {kw : List Char} (hne : kw ≠ [])
    (hAZ : ∀ k ∈ kw, 65 ≤ k.toNat ∧ k.toNat ≤ 90)
    (hlr : hasKwP false kw limitRepl = false) :
    ∀ (fuel : Nat) (prev : Bool) (s : List Char), hasKwP prev kw s = false →
      hasKwP prev kw (replaceLimitsGo fuel prev s) = false := by
  intro fuel
  induction fuel with
  | zero =>
    intro prev s h
    exact h
  | succ f ih =>
    intro prev s h
    cases s with
    | nil =>
      rw [go_nil]
      exact h
    | cons c rest =>
      rcases hm : limitMatchAt prev (c :: rest) with _ | ⟨v, n⟩
      · rw [go_cons_none hm]
        by_contra hcon
        rw [Bool.not_eq_false] at hcon
        rcases hasKwP_cons_iff.mp hcon with hocc | htail
        · -- an occurrence at the head: its span copies back to the input
          have hcw : isWordChar c = true := by
            rcases occ_parts.mp hocc with ⟨_, hcp, _⟩
            rw [List.drop_zero] at hcp
            have hK : 0 < kw.length := List.length_pos.mpr hne
            rcases ciPfx_iff.mp hcp 0 hK with ⟨e, k0, h1, h2, h3⟩
            rw [at?_head] at h1
            cases h1
            rcases hAZ k0 (at?_mem h2) with ⟨h65, h90⟩
            exact alpha_word (ciEq_upper_alpha h65 h90 h3)
          rw [hcw] at hocc
          rcases occ_parts.mp hocc with ⟨hb, hcp, ha⟩
          have hprev : prev = false := bdBefore_zero.mp hb
          rw [List.drop_zero] at hcp
          have hK : 0 < kw.length := List.length_pos.mpr hne
          have hch := ciPfx_iff.mp hcp
          have hw : ∀ j < kw.length - 1, ∃ d,
              at? (replaceLimitsGo f true rest) j = some d ∧
                isWordChar d = true := by
            intro j hj
            rcases hch (j + 1) (by omega) with ⟨d, k0, h1, h2, h3⟩
            rw [at?_cons_succ] at h1
            rcases hAZ k0 (at?_mem h2) with ⟨h65, h90⟩
            exact ⟨d, h1, alpha_word (ciEq_upper_alpha h65 h90 h3)⟩
          have hcopy := go_copy_word_out (kw.length - 1) hw
          have hocc2 : kwOccursAtP prev kw (c :: rest) 0 = true := by
            rw [occ_parts]
            refine ⟨?_, ?_, ?_⟩
            · rw [bdBefore_zero]
              exact hprev
            · rw [List.drop_zero, ciPfx_iff]
              intro j hj
              rcases hch j hj with ⟨d, k0, h1, h2, h3⟩
              cases j with
              | zero =>
                exact ⟨d, k0, h1, h2, h3⟩
              | succ j2 =>
                rw [at?_cons_succ] at h1
                rw [hcopy j2 (by omega)] at h1
                refine ⟨d, k0, ?_, h2, h3⟩
                rw [at?_cons_succ]
                exact h1
            · have he : at? (c :: rest) (0 + kw.length)
                  = at? (c :: replaceLimitsGo f true rest) (0 + kw.length) := by
                rw [Nat.zero_add]
                have hK1 : kw.length = (kw.length - 1) + 1 := by omega
                rw [hK1, at?_cons_succ, at?_cons_succ,
                  hcopy (kw.length - 1) (Nat.le_refl _)]
              rw [bdAfter_true_iff, he, ← bdAfter_true_iff]
              exact ha
          have h5 : hasKwP prev kw (c :: rest) = true :=
            hasKwP_iff.mpr ⟨0, Nat.zero_le _, hocc2⟩
          rw [h] at h5
          exact Bool.false_ne_true h5
        · have hrest : hasKwP (isWordChar c) kw rest = false := by
            by_contra h2
            rw [Bool.not_eq_false] at h2
            have h3 := (@hasKwP_cons_iff prev kw c rest).mpr (Or.inr h2)
            rw [h] at h3
            exact Bool.false_ne_true h3
          have h6 := ih (isWordChar c) rest hrest
          rw [h6] at htail
          exact Bool.false_ne_true htail
      · have hprev : prev = false := (limitMatch_elim hm).1
        subst hprev
        rw [go_cons_match hm]
        by_contra hcon
        rw [Bool.not_eq_false] at hcon
        have hq : at? (replaceLimitsGo f true ((c :: rest).drop n)) 0 = none ∨
            ∃ e, at? (replaceLimitsGo f true ((c :: rest).drop n)) 0 = some e ∧
              isWordChar e = false := by
          rw [at?_go_true_zero, at?_drop, Nat.add_zero]
          exact limitMatch_after hm
        rcases hasKwP_split hne hAZ hq hcon with h1 | h2
        · rw [hlr] at h1
          exact Bool.false_ne_true h1
        · have hdrop : hasKwP true kw ((c :: rest).drop n) = false := by
            by_contra h4
            rw [Bool.not_eq_false] at h4
            have h5 := hasKwP_drop_lift false h4
            rw [h] at h5
            exact Bool.false_ne_true h5
          have h6 := ih true ((c :: rest).drop n) hdrop
          rw [h6] at h2
          exact Bool.false_ne_true h2

lemma blocked_limitRepl : ∀ kw ∈ BLOCKED_KEYWORDS,
    hasKwP false kw limitRepl = false := by decide

lemma blocked_appLim : ∀ kw ∈ BLOCKED_KEYWORDS,
    hasKwP true kw appLim = false := by decide

lemma stripFenceHead_id {y : List Char} (h : listPfx ("```".data) y = false) :
    stripFenceHead y = y := by
  simp only [stripFenceHead]
  rw [if_neg (by simp [h])]

lemma stripFenceTail_id {y : List Char} (h1 : listSfx ("```".data) y = false)
    (h2 : listSfx ("```\n".data) y = false) :
    stripFenceTail y = y := by
  simp only [stripFenceTail]
  rw [if_neg (by simp [h1]), if_neg (by simp [h2])]

/-- Assembling an accepted `validate_sql` run from its component facts. -/
lemma validate_ok_intro {s : List Char}
    (h1 : listPfx ("ERROR:".data) (pyUpper (stage1 s)) = false)
    (h2 : startsSelWith (canonText s) = true)
    (h3 : BLOCKED_KEYWORDS.find? (fun kw => hasKw kw (canonText s)) = none) :
    validate_sql s = Except.ok (enforce_limit (canonText s)) := by
  simp only [validate_sql, h1, h2, h3, Bool.false_eq_true, if_false, Bool.not_true]

/-! # Theorems -/

/-- C7.  The fenced input accepted by `validate_sql` is canonicalized exactly
as the spec scenario states: fences stripped, default limit appended. -/
theorem c7_fenced_select_canonicalized : validate_sql c7In = Except.ok c7Out := by
  decide

/-- C3 counterexample.  The input `"ERROR: cannot answer"` trims and
fence-strips to text that does not start with SELECT or WITH, yet
`validate_sql` rejects it with the LLM-error reason, not with `NotASelect`
as the claim states. -/
theorem c3_counterexample :
    startsSelWith (canonText c3ErrIn) = false ∧
      validate_sql c3ErrIn
        = Except.error (GuardrailError.llmCouldNotAnswer ("cannot answer".data)) ∧
      validate_sql c3ErrIn ≠ Except.error GuardrailError.notASelect := by
  decide

/-- C3 (amended).  An input whose canonical text does not start with SELECT
or WITH is always rejected: with the LLM-error reason when the trimmed input
carries the `ERROR:` sentinel, and with `NotASelect` otherwise. -/
theorem c3_not_select_rejection (x : List Char)
    (h : startsSelWith (canonText x) = false) :
    (listPfx ("ERROR:".data) (pyUpper (stage1 x)) = true →
      ∃ m, validate_sql x = Except.error (GuardrailError.llmCouldNotAnswer m)) ∧
    (listPfx ("ERROR:".data) (pyUpper (stage1 x)) = false →
      validate_sql x = Except.error GuardrailError.notASelect) := by
  constructor
  · intro he
    exact ⟨pyStrip ((stage1 x).drop 6), by simp [validate_sql, he]⟩
  · intro he
    simp [validate_sql, he, h]

/-- C3 witness: the DROP scenario input starts with neither sentinel nor
SELECT/WITH and is rejected with `NotASelect` by the amended theorem. -/
theorem c3_witness :
    validate_sql scenarioDropIn = Except.error GuardrailError.notASelect :=
  (c3_not_select_rejection scenarioDropIn (by decide)).2 (by decide)

/-- C5.  Per user question the orchestrator invokes the repair generator at
most once, and never when the initially generated SQL was rejected by
`validate_sql`: a guardrail rejection goes directly to a failed response. -/
theorem c5_single_repair (o : Oracles) :
    (handleQuestion o).fixCalls ≤ 1 ∧
      (∀ raw g, o.genSql = Except.ok raw → validate_sql raw = Except.error g →
        (handleQuestion o).fixCalls = 0) := by
  constructor
  · rcases hg : o.genSql with e | raw
    · simp [handleQuestion, hg]
    · rcases hv : validate_sql raw with g | sql
      · simp [handleQuestion, hg, hv]
      · rcases hr : o.runQuery sql with e | df
        · rcases hf : o.fixSql sql e with e2 | fixed
          · simp [handleQuestion, hg, hv, hr, hf]
          · rcases hv2 : validate_sql fixed with g2 | sql2
            · simp [handleQuestion, hg, hv, hr, hf, hv2]
            · rcases hr2 : o.runQuery sql2 with e3 | df2 <;>
                simp [handleQuestion, hg, hv, hr, hf, hv2, hr2]
        · simp [handleQuestion, hg, hv, hr]
  · intro raw g hraw hval
    simp [handleQuestion, hraw, hval]

/-- C5 witness: a concrete oracle whose generated SQL is rejected makes no
repair call. -/
theorem c5_witness :
    (handleQuestion oracleReject).fixCalls ≤ 1 ∧
      (handleQuestion oracleReject).fixCalls = 0 :=
  ⟨(c5_single_repair oracleReject).1,
    (c5_single_repair oracleReject).2 scenarioDropIn GuardrailError.notASelect rfl
      (by decide)⟩

/-- C6.  On an empty result table `run_validations` short-circuits to exactly
the single zero-rows warning; none of the other checks contributes.  (The
function is a total Lean definition over every table, matching the contract
that it never raises.) -/
theorem c6_empty_table_single_warning (df : Df) (sql : List Char)
    (h : dfEmpty df = true) : run_validations df sql = [Warning.zeroRows] := by
  simp [run_validations, h]

/-- C6 witness: a zero-row table yields exactly the zero-rows warning. -/
theorem c6_witness : run_validations dfNoRows [] = [Warning.zeroRows] :=
  c6_empty_table_single_warning dfNoRows [] (by decide)

/-- C9.  The chart dispatcher is deterministic: with the library behaviour
fixed, identical table contents and title always select the same chart kind
— the choice is a pure function of the pair. -/
theorem c9_auto_chart_deterministic (pm : PandasModel) (df df2 : Df)
    (t t2 : List Char) (hdf : df = df2) (ht : t = t2) :
    auto_chart pm df t = auto_chart pm df2 t2 := by
  rw [hdf, ht]

/-- C9 witness: instantiated at a concrete table and title. -/
theorem c9_witness :
    auto_chart pmFixed dfCountry2 [] = auto_chart pmFixed dfCountry2 [] :=
  c9_auto_chart_deterministic pmFixed dfCountry2 dfCountry2 [] [] rfl rfl

/-- C8 counterexample.  A one-row table with a `country` column and a numeric
`total_sales` column, under an empty title, satisfies every condition of the
claim (non-empty, geographic and numeric columns, no title-triggered earlier
rule), yet `auto_chart` selects the single-KPI card — the one-row rule fires
before the choropleth rule. -/
theorem c8_counterexample :
    auto_chart pmFixed dfCountry1 [] = ChartKind.kpiSingle nameSales ∧
      isChoroKind (auto_chart pmFixed dfCountry1 []) = false := by
  decide

/-- C8 (amended).  For a table with more than one row, a geographic column
headed by the given name, a numeric column, and a title that does not carry
funnel keywords, `auto_chart` selects a choropleth keyed on that geographic
column and the first numeric column; when no sampled value has display
length two it is in country-name mode. -/
theorem c8_choropleth_dispatch (pm : PandasModel) (df : Df)
    (title gname : List Char)
    (hne : dfEmpty df = false) (hrows : nrows df ≠ 1)
    (hgeo : geo_cols df ≠ []) (hghead : (geo_cols df).headD [] = gname)
    (hnum : numericColNames df ≠ [])
    (hfun : is_funnel title = false)
    (hus : usStateSample pm df gname = false) :
    auto_chart pm df title
      = ChartKind.choropleth gname ((numericColNames df).headD []) false := by
  unfold auto_chart
  rw [hne]
  simp only [Bool.false_eq_true, if_false]
  rw [if_neg (by intro hc; exact hrows hc.1)]
  rw [if_neg (by intro hc; rw [hfun] at hc; exact Bool.false_ne_true hc.1)]
  rw [if_pos ⟨hgeo, hnum⟩]
  unfold chooseChoropleth
  rw [hghead, hus]

/-- C8 witness: the two-row country/total_sales table dispatches to the
country-name choropleth. -/
theorem c8_witness :
    auto_chart pmFixed dfCountry2 []
      = ChartKind.choropleth nameCountry nameSales false :=
  c8_choropleth_dispatch pmFixed dfCountry2 [] nameCountry (by decide)
    (by decide) (by decide) (by decide) (by decide) (by decide) (by decide)

/-- C1 counterexample.  The scenario input `"DROP TABLE users; SELECT * FROM
users"` contains the denylisted keyword DROP as a whole word, and is indeed
rejected — but with the `NotASelect` reason, not with `BlockedKeyword` =
"DROP" as the claim states: the start-with-SELECT check runs first. -/
theorem c1_counterexample :
    hasKw kwDROP scenarioDropIn = true ∧
      validate_sql scenarioDropIn = Except.error GuardrailError.notASelect ∧
      validate_sql scenarioDropIn
        ≠ Except.error (GuardrailError.blockedKeyword kwDROP) := by
  decide

/-- C4 counterexample.  Accepted outputs ending in a semicolon or in a
backtick fence are not fixed points: `validate_sql` strips further on the
second pass, so `validate(validate(x)) ≠ validate(x)` for these inputs. -/
theorem c4_counterexample :
    validate_sql c4In1 = Except.ok c4Mid1 ∧
      validate_sql c4Mid1 = Except.ok c4Out1 ∧ c4Mid1 ≠ c4Out1 ∧
      validate_sql c4In2 = Except.ok c4Mid2 ∧
      validate_sql c4Mid2 = Except.ok c4Out1 ∧ c4Mid2 ≠ c4Out1 := by
  decide

/-- C1 (amended).  Every input containing a denylisted keyword as a whole
word (case-insensitive, any position) is rejected by `validate_sql`; the
rejection reason is `BlockedKeyword`, naming a denylisted keyword, whenever
the canonicalized text passes the earlier checks (it starts with SELECT or
WITH and the trimmed input does not carry the ERROR: sentinel).  The
scenario input is rejected, but by the earlier `NotASelect` check. -/
theorem c1_blocked_keyword_rejection (x kw : List Char)
    (hkw : kw ∈ BLOCKED_KEYWORDS) (hx : hasKw kw x = true) :
    (∃ e, validate_sql x = Except.error e) ∧
    (startsSelWith (canonText x) = true →
      listPfx ("ERROR:".data) (pyUpper (stage1 x)) = false →
      ∃ kw2, kw2 ∈ BLOCKED_KEYWORDS ∧
        validate_sql x = Except.error (GuardrailError.blockedKeyword kw2)) := by
  have hcanon : hasKw kw (canonText x) = true :=
    kwKeep_canon (blocked_shape kw hkw) hx
  have hfind : ∃ kw2, BLOCKED_KEYWORDS.find? (fun k => hasKw k (canonText x))
      = some kw2 := by
    apply Option.isSome_iff_exists.mp
    rw [List.find?_isSome]
    exact ⟨kw, hkw, hcanon⟩
  rcases hfind with ⟨kw2, hfind⟩
  have hmem : kw2 ∈ BLOCKED_KEYWORDS := List.mem_of_find?_eq_some hfind
  constructor
  · by_cases herr : listPfx ("ERROR:".data) (pyUpper (stage1 x)) = true
    · refine ⟨GuardrailError.llmCouldNotAnswer (pyStrip ((stage1 x).drop 6)), ?_⟩
      simp [validate_sql, herr]
    · by_cases hsel : startsSelWith (canonText x) = true
      · refine ⟨GuardrailError.blockedKeyword kw2, ?_⟩
        simp only [validate_sql, Bool.not_eq_true] at herr
        simp [validate_sql, herr, hsel, hfind]
      · refine ⟨GuardrailError.notASelect, ?_⟩
        simp only [Bool.not_eq_true] at herr hsel
        simp [validate_sql, herr, hsel]
  · intro hsel herr
    refine ⟨kw2, hmem, ?_⟩
    simp [validate_sql, herr, hsel, hfind]

/-- C1 witness: a SELECT query containing DROP after a semicolon is rejected
with a `BlockedKeyword` reason. -/
theorem c1_witness :
    (∃ e, validate_sql c1SelIn = Except.error e) ∧
      ∃ kw2, kw2 ∈ BLOCKED_KEYWORDS ∧
        validate_sql c1SelIn = Except.error (GuardrailError.blockedKeyword kw2) :=
  ⟨(c1_blocked_keyword_rejection c1SelIn kwDROP (by decide) (by decide)).1,
    (c1_blocked_keyword_rejection c1SelIn kwDROP (by decide) (by decide)).2
      (by decide) (by decide)⟩

/-- C2.  The limit enforcement behaves exactly as claimed on the three
scenario shapes — LIMIT 5000 is rewritten to LIMIT 1000, a missing LIMIT is
given the default 100, LIMIT 50 is untouched — and, in general, every
accepted output carries a LIMIT clause whose first value is at or under the
ceiling. -/
theorem c2_limit_enforcement :
    validate_sql c2In1 = Except.ok c2Out1 ∧
      validate_sql c2In2 = Except.ok c2Out2 ∧
      validate_sql c2In3 = Except.ok c2In3 ∧
      ∀ x y, validate_sql x = Except.ok y →
        ∃ v, findLimitVal false y = some v ∧ v ≤ MAX_LIMIT := by
  refine ⟨by decide, by decide, by decide, ?_⟩
  intro x y h
  exact validate_limit_inv h

/-- C2 witness: the capped output of the LIMIT 5000 scenario satisfies the
general ceiling invariant. -/
theorem c2_witness : ∃ v, findLimitVal false c2Out1 = some v ∧ v ≤ MAX_LIMIT :=
  c2_limit_enforcement.2.2.2 c2In1 c2Out1 (by decide)

/-- C10.  The ceiling comparison inspects only the first `LIMIT n` in text
order: any query whose first LIMIT value is at or under the ceiling passes
through `_enforce_limit` completely unchanged, even with a later over-limit
clause (first scenario); when the first value exceeds the ceiling, every
LIMIT clause in the text is rewritten to 1000, not only the offending one
(second scenario). -/
theorem c10_first_limit_occurrence :
    (∀ s v, findLimitVal false s = some v → v ≤ MAX_LIMIT → enforce_limit s = s) ∧
      validate_sql c10In1 = Except.ok c10In1 ∧
      validate_sql c10In2 = Except.ok c10Out2 := by
  refine ⟨?_, by decide, by decide⟩
  intro s v hf hv
  simp only [enforce_limit, hf]
  rw [if_neg (by omega)]

/-- C10 witness: the nested query whose first LIMIT is 50 is left unchanged
by `_enforce_limit`. -/
theorem c10_witness : enforce_limit c10In1 = c10In1 :=
  c10_first_limit_occurrence.1 c10In1 50 (by decide) (by decide)

/-- C4 (amended).  `validate_sql` is idempotent on accepted outputs that end
neither in a semicolon nor in a closing backtick fence: for such an output
`y`, a second run accepts `y` and returns it unchanged.  Outputs ending in
`;` or in a fence are stripped further on the second pass (see the
counterexamples), so the unrestricted idempotence of the claim fails. -/
theorem c4_idempotent_on_output (x y : List Char)
    (h : validate_sql x = Except.ok y)
    (hsemi : listSfx (";".data) y = false)
    (hfence : listSfx ("```".data) y = false) :
    validate_sql y = Except.ok y := by
  obtain ⟨hERR, hSel, hKw, hy⟩ := validate_ok_parts h
  have hkwall : ∀ kw ∈ BLOCKED_KEYWORDS, hasKw kw (canonText x) = false := by
    intro kw hkw
    have h1 := List.find?_eq_none.mp hKw kw hkw
    simpa using h1
  have hcne : canonText x ≠ [] := by
    intro hnil
    rw [hnil] at hSel
    exact absurd hSel (by decide)
  obtain ⟨c0, hc0⟩ : ∃ c0, at? (canonText x) 0 = some c0 :=
    at?_some_of_lt (List.length_pos.mpr hcne)
  have hc0ns : isSpaceChar c0 = false := by
    have hc0p : at? (pyStrip (stripFenceTail (stripFenceHead (stage1 x)))) 0
        = some c0 := hc0
    exact pyStrip_head_nonspace hc0p
  have hpfxSW := startsSelWith_parts hc0 hc0ns hSel
  have hc0up : c0.toUpper = 'S' ∨ c0.toUpper = 'W' := sel_head_upper hc0 hpfxSW
  have hc0w : isWordChar c0 = true := by
    apply alpha_word
    rcases hc0up with he | he
    · exact ciEq_upper_alpha (by decide) (by decide)
        (show (c0.toUpper == 'S'.toUpper) = true from by rw [he]; decide)
    · exact ciEq_upper_alpha (by decide) (by decide)
        (show (c0.toUpper == 'W'.toUpper) = true from by rw [he]; decide)
  obtain ⟨d0, hd0⟩ : ∃ d0, at? (canonText x).reverse 0 = some d0 := by
    apply at?_some_of_lt
    rw [List.length_reverse]
    exact List.length_pos.mpr hcne
  have hd0ns : isSpaceChar d0 = false := by
    have hd0p : at? (pyStrip (stripFenceTail (stripFenceHead (stage1 x)))).reverse 0
        = some d0 := hd0
    exact pyStrip_last_nonspace hd0p
  -- head, last, keywords and SELECT prefix of the output, per branch
  have hyfacts : at? y 0 = some c0 ∧
      (∃ d, at? y.reverse 0 = some d ∧ isSpaceChar d = false) ∧
      (∀ kw ∈ BLOCKED_KEYWORDS, hasKw kw y = false) ∧
      (listPfx ("SELECT".data) (pyUpper y) = true ∨
        listPfx ("WITH".data) (pyUpper y) = true) := by
    rcases hf : findLimitVal false (canonText x) with _ | v
    · -- no LIMIT clause: the default is appended
      have hyv : y = canonText x ++ appLim := by
        rw [hy]
        simp only [enforce_limit, hf]
      refine ⟨?_, ⟨'0', ?_, by decide⟩, ?_, ?_⟩
      · rw [hyv, at?_append_left appLim (at?_lt_of_some hc0)]
        exact hc0
      · rw [hyv, List.reverse_append,
          at?_append_left ((canonText x).reverse) (by decide)]
        decide
      · intro kw hkw
        rw [hyv]
        by_contra hcon
        rw [Bool.not_eq_false] at hcon
        have hcon2 : hasKwP false kw (canonText x ++ appLim) = true := hcon
        rcases hasKwP_split (blocked_ne kw hkw) (blocked_AZ kw hkw)
          (Or.inr ⟨'\n', by decide, by decide⟩) hcon2 with h1 | h2
        · have h1b : hasKw kw (canonText x) = true := h1
          rw [hkwall kw hkw] at h1b
          exact Bool.false_ne_true h1b
        · rw [blocked_appLim kw hkw] at h2
          exact Bool.false_ne_true h2
      · rw [hyv, pyUpper_append]
        rcases hpfxSW with hp | hp
        · exact Or.inl (listPfx_append_keep _ hp)
        · exact Or.inr (listPfx_append_keep _ hp)
    · by_cases hgt : v > MAX_LIMIT
      · -- an over-ceiling LIMIT: every LIMIT clause is rewritten
        have hyv : y = replaceLimits (canonText x) := by
          rw [hy]
          simp only [enforce_limit, hf]
          rw [if_pos hgt]
        obtain ⟨ctail, hcc⟩ : ∃ t, canonText x = c0 :: t := by
          cases hcx : canonText x with
          | nil =>
            rw [hcx] at hc0
            exact Option.noConfusion hc0
          | cons a t =>
            rw [hcx, at?_head] at hc0
            injection hc0 with hac
            subst hac
            exact ⟨t, rfl⟩
        have hm0 : limitMatchAt false (c0 :: ctail) = none := by
          apply limitMatch_head_not_ciL
          rcases hc0up with he | he
          · show (c0.toUpper == 'L'.toUpper) = false
            rw [he]
            decide
          · show (c0.toUpper == 'L'.toUpper) = false
            rw [he]
            decide
        have hyshape : y = c0 :: replaceLimitsGo ctail.length true ctail := by
          rw [hyv, hcc]
          simp only [replaceLimits, List.length_cons]
          rw [go_cons_none hm0, hc0w]
        refine ⟨?_, ?_, ?_, ?_⟩
        · rw [hyshape]
          exact at?_head
        · rcases go_last_mem (canonText x).length false (canonText x) with hL | hR
          · refine ⟨d0, ?_, hd0ns⟩
            rw [hyv]
            simp only [replaceLimits]
            rw [hL]
            exact hd0
          · refine ⟨'0', ?_, by decide⟩
            rw [hyv]
            simp only [replaceLimits]
            exact hR
        · intro kw hkw
          rw [hyv]
          show hasKwP false kw (replaceLimits (canonText x)) = false
          simp only [replaceLimits]
          exact go_kw_keep (blocked_ne kw hkw) (blocked_AZ kw hkw)
            (blocked_limitRepl kw hkw) (canonText x).length false (canonText x)
            (hkwall kw hkw)
        · have htrans : ∀ p : List Char,
              (∀ k ∈ p, 65 ≤ k.toNat ∧ k.toNat ≤ 90) →
              listPfx p (pyUpper (canonText x)) = true →
              listPfx p (pyUpper y) = true := by
            intro p hAZ hp
            have hword := word_of_upper_pfx hAZ hp
            have hcopy : ∀ j < p.length, at? y j = at? (canonText x) j := by
              intro j hj
              cases j with
              | zero =>
                rw [hyshape, at?_head]
                exact hc0.symm
              | succ j2 =>
                rw [hyshape, at?_cons_succ, hcc, at?_cons_succ]
                have hwlocal : ∀ j3 < j2, ∃ e, at? ctail j3 = some e ∧
                    isWordChar e = true := by
                  intro j3 hj3
                  rcases hword (j3 + 1) (by omega) with ⟨e, he1, he2⟩
                  rw [hcc, at?_cons_succ] at he1
                  exact ⟨e, he1, he2⟩
                exact go_copy_word_in hwlocal j2 (Nat.le_refl j2)
            rcases hpfxSW with hpS | hpS
            · exact listPfx_upper_transfer hcopy hp
            · exact listPfx_upper_transfer hcopy hp
          rcases hpfxSW with hp | hp
          · exact Or.inl (htrans _ (by decide) hp)
          · exact Or.inr (htrans _ (by decide) hp)
      · -- a LIMIT already at or under the ceiling: the text is unchanged
        have hyv : y = canonText x := by
          rw [hy]
          simp only [enforce_limit, hf]
          rw [if_neg hgt]
        rw [hyv]
        exact ⟨hc0, ⟨d0, hd0, hd0ns⟩, hkwall, hpfxSW⟩
  obtain ⟨hy0, ⟨dl, hdl, hdlns⟩, hykw, hypfx⟩ := hyfacts
  -- stage 1 is the identity on y
  have hls : lstripWS y = y := lstripWS_id hy0 hc0ns
  have hrs : rstripWS y = y := rstripWS_id hdl hdlns
  have hps : pyStrip y = y := by
    simp only [pyStrip]
    rw [hls, hrs]
  have hdlsemi : (dl == ';') = false := by
    by_contra hcon
    rw [Bool.not_eq_false, beq_iff_eq] at hcon
    subst hcon
    have h1 : listSfx (";".data) y = true := listSfx_singleton_true hdl
    rw [hsemi] at h1
    exact Bool.false_ne_true h1
  have hst : stage1 y = y := by
    simp only [stage1]
    rw [hps, rstripSemi_id hdl hdlsemi]
  -- no ERROR sentinel on the second pass
  have herry : listPfx ("ERROR:".data) (pyUpper (stage1 y)) = false := by
    rw [hst]
    by_contra hcon
    rw [Bool.not_eq_false] at hcon
    rcases listPfx_iff.mp hcon 0 (by decide) with ⟨e, he1, he2⟩
    rw [show at? ("ERROR:".data) 0 = some 'E' from rfl] at he1
    cases he1
    rw [show pyUpper y = y.map Char.toUpper from rfl, at?_map, hy0] at he2
    injection he2 with he3
    rcases hc0up with h4 | h4
    · rw [h4] at he3
      exact absurd he3 (by decide)
    · rw [h4] at he3
      exact absurd he3 (by decide)
  -- the canonical text of y is y itself
  have hfh : stripFenceHead y = y := by
    apply stripFenceHead_id
    by_contra hcon
    rw [Bool.not_eq_false] at hcon
    rcases listPfx_iff.mp hcon 0 (by decide) with ⟨e, he1, he2⟩
    rw [show at? ("```".data) 0 = some '`' from rfl] at he1
    cases he1
    rw [hy0] at he2
    injection he2 with he3
    rcases hc0up with h4 | h4
    · rw [he3] at h4
      exact absurd h4 (by decide)
    · rw [he3] at h4
      exact absurd h4 (by decide)
  have hft : stripFenceTail y = y :=
    stripFenceTail_id hfence (listSfx_fence_nl_false hdl hdlns)
  have hcanon : canonText y = y := by
    simp only [canonText]
    rw [hst, hfh, hft]
    exact hps
  have hsely : startsSelWith y = true := startsSelWith_intro hy0 hc0ns hypfx
  have hkwy : BLOCKED_KEYWORDS.find? (fun kw => hasKw kw y) = none := by
    rw [List.find?_eq_none]
    intro kw hkw
    show ¬ hasKw kw y = true
    rw [hykw kw hkw]
    exact Bool.false_ne_true
  have henf : enforce_limit y = y := by
    rcases validate_limit_inv h with ⟨v, hv1, hv2⟩
    simp only [enforce_limit, hv1]
    rw [if_neg (by omega)]
  calc validate_sql y = Except.ok (enforce_limit (canonText y)) :=
        validate_ok_intro herry (by rw [hcanon]; exact hsely)
          (by rw [hcanon]; exact hkwy)
    _ = Except.ok y := by rw [hcanon, henf]

/-- C4 witness: the accepted output of the fenced scenario query ends in
neither a semicolon nor a fence, and a second validation fixes it. -/
theorem c4_witness : validate_sql c7Out = Except.ok c7Out :=
  c4_idempotent_on_output c7In c7Out (by decide) (by decide) (by decide)

end SqlCopilot
